import Mathlib

/-!
# The persona-scoped chat session of `static/script.js`

A shallow embedding of the class `ChatbotInterface`: its fields become the
record `State`, its methods become functions on `State`, and the browser
around it (the `localStorage` store, the clock read by `new Date()`, the
outcome of `fetch`) is passed in explicitly.

Conventions of the embedding.

* A text held by `localStorage` is represented by what `JSON.parse` makes of
  it: `Text.json log` is the text `JSON.stringify` writes for the array `log`
  (parsing it gives `log` back), `Text.raw s` is a text `s` that `JSON.parse`
  rejects, the empty text included.  Stored logs are arrays of message records
  with textual `text` and `sender`; the `persona` field may be absent.
* `for (const msg of this.chatHistory)` walks the array object that
  `this.chatHistory` named when the loop started and re-reads its length on
  every step; `push` lengthens that very object until `saveHistory` binds
  `this.chatHistory` to a fresh `slice`.  `renderLoop` keeps the walked array
  and a flag telling whether `this.chatHistory` is still that object.
* An `async` method is cut at its suspension point into the part run when it
  is called and the part run when the awaited call settles.
* The clock is a function `now` from the number of readings taken so far to
  the timestamp read, so no two readings are assumed to differ.
-/

namespace Chatbot

/-! ## Values and strings -/

/-- A JavaScript value found in a parsed reply: a number is kept as its
binary64 bit pattern, an object or array as its JSON text. -/
inductive JVal
  | undefined
  | null
  | bool (b : Bool)
  | num (bits : Nat)
  | str (s : String)
  | object (json : String)
  deriving DecidableEq, Repr

/-- The bit pattern is a NaN: exponent all ones, fraction not zero. -/
def isNaNBits (bits : Nat) : Bool :=
  (bits / 2 ^ 52) % 2 ^ 11 == 2047 && bits % 2 ^ 52 != 0

/-- JavaScript truthiness: `undefined`, `null`, `false`, `+0`, `-0`, `NaN`
and `""` are falsy, everything else is truthy. -/
def JVal.truthy : JVal → Bool
  | .undefined => false
  | .null => false
  | .bool b => b
  | .num bits => bits % 2 ^ 63 != 0 && !isNaNBits bits
  | .str s => s != ""
  | .object _ => true

/-- The code points `String.prototype.trim` strips: ECMAScript white space
and line terminators. -/
def isJsSpace (c : Char) : Bool :=
  let n := c.toNat
  n == 0x9 || n == 0xA || n == 0xB || n == 0xC || n == 0xD || n == 0x20 ||
  n == 0xA0 || n == 0x1680 || (0x2000 ≤ n && n ≤ 0x200A) || n == 0x2028 ||
  n == 0x2029 || n == 0x202F || n == 0x205F || n == 0x3000 || n == 0xFEFF

/-- The characters the regular-expression dot does not match. -/
def isLineTerminator (c : Char) : Bool :=
  let n := c.toNat
  n == 0xA || n == 0xD || n == 0x2028 || n == 0x2029

/-- `String.prototype.trim` on a list of characters. -/
def trimChars (cs : List Char) : List Char :=
  ((cs.dropWhile isJsSpace).reverse.dropWhile isJsSpace).reverse

/-- `String.prototype.trim`. -/
def trim (s : String) : String := ⟨trimChars s.data⟩

/-- `String.prototype.includes`: `pat` occurs somewhere in `s`. -/
def includes (s pat : String) : Bool :=
  s.data.tails.any (fun t => pat.data.isPrefixOf t)

/-- `.replace(/\n/g, '<br>')`. -/
def replaceNewlines : List Char → List Char
  | [] => []
  | c :: cs => if c = '\n' then "<br>".data ++ replaceNewlines cs else c :: replaceNewlines cs

/-- The shortest run of characters the dot matches that is followed by the
delimiter `d`: the run and what follows the delimiter. -/
def findClose (d : List Char) : List Char → Option (List Char × List Char)
  | [] => none
  | c :: cs =>
    if d.isPrefixOf (c :: cs) then some ([], (c :: cs).drop d.length)
    else if isLineTerminator c then none
    else match findClose d cs with
      | some (inner, rest) => some (c :: inner, rest)
      | none => none

/-- A global replace of `d(.*?)d` by `opening$1closing`, scanning left to
right; `fuel` bounds the number of scanning steps. -/
def replaceSpans (d opening closing : List Char) : Nat → List Char → List Char
  | 0, cs => cs
  | _ + 1, [] => []
  | fuel + 1, c :: cs =>
    if d.isPrefixOf (c :: cs) then
      match findClose d ((c :: cs).drop d.length) with
      | some (inner, rest) => opening ++ inner ++ closing ++ replaceSpans d opening closing fuel rest
      | none => c :: replaceSpans d opening closing fuel cs
    else c :: replaceSpans d opening closing fuel cs

/-- One `.replace(/d(.*?)d/g, ...)` call. -/
def replaceAllSpans (d opening closing cs : List Char) : List Char :=
  replaceSpans d opening closing (cs.length + 1) cs

/-- `processText(text)` for a textual argument: line breaks, then bold,
italic and code spans (the code delimiter is the grave accent, code 96). -/
def processText (text : String) : String :=
  let t1 := replaceNewlines text.data
  let t2 := replaceAllSpans "**".data "<strong>".data "</strong>".data t1
  let t3 := replaceAllSpans "*".data "<em>".data "</em>".data t2
  ⟨replaceAllSpans [Char.ofNat 96] "<code>".data "</code>".data t3⟩

/-! ## Personas, messages, the store -/

/-- The closed set of personas `currentPersona` ranges over. -/
inductive Persona
  | professor
  | amigo
  deriving DecidableEq, Repr

/-- The identifier string of a persona. -/
def Persona.id : Persona → String
  | .professor => "professor"
  | .amigo => "amigo"

/-- One entry of `this.personas`. -/
structure PersonaData where
  name : String
  avatar : String
  welcome : String
  prompt : String
  deriving DecidableEq, Repr

/-- The table `this.personas`. -/
def personas : Persona → PersonaData
  | .professor =>
    { name := "Dr. Gasnelio"
      avatar := "https://i.postimg.cc/NfdHCVM7/Chat-GPT-Image-13-de-jul-de-2025-00-09-29.png"
      welcome := "Saudações! Sou o Dr. Gasnelio. Minha pesquisa foca no roteiro de dispensação para a prática da farmácia clínica. Como posso auxiliá-lo hoje?"
      prompt := "Você é o Dr. Gasnelio, um farmacêutico especialista e pesquisador. Responda de forma técnica, precisa e educada, como um professor universitário. Sua base de conhecimento é uma tese sobre roteiros de dispensação para hanseníase." }
  | .amigo =>
    { name := "Gá"
      avatar := "https://i.postimg.cc/j5YwJYgK/Chat-GPT-Image-13-de-jul-de-2025-00-14-18.png"
      welcome := "Opa, tudo certo? Aqui é o Gá! Tô aqui pra gente desenrolar qualquer dúvida sobre o uso correto de medicamentos e o roteiro de dispensação. Manda a ver!"
      prompt := "Você é o Gá, um farmacêutico amigável e profissional. Responda de forma casual, simples e encorajadora, como um amigo. Sua base de conhecimento é uma tese sobre roteiros de dispensação para hanseníase." }

/-- The `meta` object of a message; an absent key reads as `undefined`. -/
structure MetaInfo where
  confidence : JVal := .undefined
  source : JVal := .undefined
  personality : JVal := .undefined
  deriving DecidableEq, Repr

/-- The record `messageData` pushed onto `chatHistory`. -/
structure Message where
  text : String
  sender : String
  persona : Option String
  timestamp : String
  meta : MetaInfo
  deriving DecidableEq, Repr

/-- A text held by `localStorage`, by what `JSON.parse` makes of it. -/
inductive Text
  | raw (s : String)
  | json (log : List Message)
  deriving DecidableEq, Repr

/-- The store `localStorage`: key to text, `none` for an absent key. -/
abbrev Store := String → Option Text

/-- The store with no key at all. -/
def emptyStore : Store := fun _ => none

/-- `localStorage.getItem`. -/
def getItem (st : Store) (key : String) : Option Text := st key

/-- `localStorage.setItem`. -/
def setItem (st : Store) (key : String) (value : Text) : Store :=
  fun k => if k = key then some value else st k

/-- `localStorage.removeItem`. -/
def removeItem (st : Store) (key : String) : Store :=
  fun k => if k = key then none else st k

/-- The key of the selected persona. -/
def personaKey : String := "teseWebPersona"

/-- The key of a persona's log: `'teseWebChatHistory_' + persona`. -/
def historyKey (p : Persona) : String := "teseWebChatHistory_" ++ p.id

/-! ## The widget -/

/-- A child of the element `chat-window`. -/
inductive Node
  | bubble (html : String) (sender : String) (avatar : Option Persona) (meta : MetaInfo)
  | typingIndicator (avatar : Persona)
  deriving DecidableEq, Repr

/-- The body `fetch` is called with. -/
structure Request where
  question : String
  personality_id : String
  deriving DecidableEq, Repr

/-- The fields of a `ChatbotInterface` together with the store, the number
of clock readings taken and the calls made to `fetch`. -/
structure State where
  localStorage : Store
  clock : Nat
  requests : List Request
  currentPersona : Persona
  isProcessing : Bool
  chatHistory : List Message
  toggleActive : Bool
  chatWindow : List Node
  chatInput : String
  inputDisabled : Bool
  statusText : String
  errorContainer : Option String

/-- What the widget reads from its surroundings: the clock. `now k` is the
timestamp `new Date().toISOString()` gives on reading number `k`. -/
abbrev Clock := Nat → String

/-- `loadPersona()`: a stored selection is taken over when it is one of the
two identifiers; the toggle is set to match. -/
def loadPersona (σ : State) : State :=
  let p :=
    match getItem σ.localStorage personaKey with
    | some (.raw s) =>
      if s = "professor" then Persona.professor
      else if s = "amigo" then Persona.amigo
      else σ.currentPersona
    | _ => σ.currentPersona
  { σ with currentPersona := p, toggleActive := decide (p = Persona.amigo) }

/-- `loadHistory()`: an absent key and the empty text give the empty log
without parsing; a text `JSON.parse` rejects gives the empty log and its key
is removed. -/
def loadHistory (σ : State) : State :=
  match getItem σ.localStorage (historyKey σ.currentPersona) with
  | none => { σ with chatHistory := [] }
  | some (.json log) => { σ with chatHistory := log }
  | some (.raw s) =>
    if s = "" then { σ with chatHistory := [] }
    else { σ with chatHistory := [],
                  localStorage := removeItem σ.localStorage (historyKey σ.currentPersona) }

/-- `saveHistory()`: keep the last 30 entries, then write the log under the
current persona's key. -/
def saveHistory (σ : State) : State :=
  let h :=
    if σ.chatHistory.length > 30 then σ.chatHistory.drop (σ.chatHistory.length - 30)
    else σ.chatHistory
  { σ with chatHistory := h,
           localStorage := setItem σ.localStorage (historyKey σ.currentPersona) (.json h) }

/-- The record `messageData` built by `addMessage`. -/
def messageData (now : Clock) (σ : State) (text sender : String) (meta : MetaInfo) : Message :=
  { text := text, sender := sender, persona := some σ.currentPersona.id,
    timestamp := now σ.clock, meta := meta }

/-- The element `addMessage` appends to the chat window. -/
def messageNode (σ : State) (text sender : String) (meta : MetaInfo) : Node :=
  .bubble (processText text) sender
    (if sender = "user" then none else some σ.currentPersona) meta

/-- The first half of `addMessage`: display the message and push its record
onto `chatHistory`. -/
def pushMessage (now : Clock) (σ : State) (text sender : String) (meta : MetaInfo) : State :=
  { σ with chatWindow := σ.chatWindow ++ [messageNode σ text sender meta],
           chatHistory := σ.chatHistory ++ [messageData now σ text sender meta],
           clock := σ.clock + 1 }

/-- `addMessage(text, sender, meta)`: display, push, `saveHistory()`. -/
def addMessage (now : Clock) (σ : State) (text sender : String) (meta : MetaInfo) : State :=
  saveHistory (pushMessage now σ text sender meta)

/-- The test of `renderHistory` that skips a message: it has a truthy
persona tag that differs from the current persona. -/
def skipped (p : Persona) (msg : Message) : Bool :=
  match msg.persona with
  | none => false
  | some q => q != "" && q != p.id

/-- The loop of `renderHistory`. `arr` is the array object being walked, `i`
the iterator's index, `aliased` tells whether `this.chatHistory` is still
that object; `none` when `fuel` runs out before the iterator is done. -/
def renderLoop (now : Clock) : Nat → List Message → Nat → Bool → State → Option State
  | 0, _, _, _, _ => none
  | fuel + 1, arr, i, aliased, σ =>
    match arr.get? i with
    | none => some σ
    | some msg =>
      if skipped σ.currentPersona msg then renderLoop now fuel arr (i + 1) aliased σ
      else
        let pushed := pushMessage now σ msg.text msg.sender msg.meta
        let arr1 := if aliased then pushed.chatHistory else arr
        let aliased1 := aliased && !decide (pushed.chatHistory.length > 30)
        renderLoop now fuel arr1 (i + 1) aliased1 (saveHistory pushed)

/-- `renderHistory()`: clear the window, then walk `this.chatHistory`. -/
def renderHistory (now : Clock) (σ : State) : Option State :=
  renderLoop now (σ.chatHistory.length + 32) σ.chatHistory 0 true { σ with chatWindow := [] }

/-- `init()`, the chat window being present. -/
def init (now : Clock) (σ : State) : Option State :=
  let σ1 := loadHistory (loadPersona { σ with chatWindow := [] })
  if σ1.chatHistory.length = 0 then
    some (addMessage now σ1 (personas σ1.currentPersona).welcome "bot" {})
  else renderHistory now σ1

/-- The fields set by the constructor before it calls `init()`, over the
store that outlives the page. -/
def fresh (store : Store) (clock : Nat) (requests : List Request) : State :=
  { localStorage := store, clock := clock, requests := requests,
    currentPersona := .professor, isProcessing := false, chatHistory := [],
    toggleActive := false, chatWindow := [], chatInput := "",
    inputDisabled := false, statusText := "", errorContainer := none }

/-- `new ChatbotInterface()` on a page load. -/
def construct (now : Clock) (store : Store) (clock : Nat) (requests : List Request) :
    Option State :=
  init now (fresh store clock requests)

/-- The first lines of the click handler installed by `setupPersonaToggle()`:
flip the toggle, set the persona it shows, store the selection. -/
def toggleSelect (σ : State) : State :=
  let active := !σ.toggleActive
  let p := if active then Persona.amigo else Persona.professor
  { σ with toggleActive := active, currentPersona := p,
           localStorage := setItem σ.localStorage personaKey (.raw p.id) }

/-- The click handler installed by `setupPersonaToggle()`. -/
def togglePersona (now : Clock) (σ : State) : Option State :=
  let σ1 := loadHistory (toggleSelect σ)
  if σ1.chatHistory.length = 0 then
    some (addMessage now { σ1 with chatWindow := [] } (personas σ1.currentPersona).welcome "bot" {})
  else renderHistory now σ1

/-! ## The exchange with the answer service -/

/-- A thrown `Error` object, by its `message`. -/
structure JsError where
  message : String
  deriving DecidableEq, Repr

/-- The fields the widget reads from a reply object. -/
structure Reply where
  answer : JVal
  confidence : JVal
  source : JVal
  personality : JVal
  deriving DecidableEq, Repr

/-- The value `response.json()` gives: `null`, a value that is no object
with fields of its own to read (number, string, boolean, array), or an
object. -/
inductive Body
  | null
  | plain
  | object (r : Reply)
  deriving DecidableEq, Repr

/-- How the network call of `fetchLLMResponse` goes: `fetch` rejects, the
reply has a non-success status, `response.json()` rejects, or a body is
parsed. -/
inductive FetchOutcome
  | rejected (e : JsError)
  | notOk (status : Nat) (statusText body : String)
  | badJson (e : JsError)
  | ok (b : Body)
  deriving DecidableEq, Repr

/-- What `fetchLLMResponse` returns: the parsed reply, or a bare string. -/
inductive Response
  | result (r : Reply)
  | bare (s : String)
  deriving DecidableEq, Repr

/-- The `TypeError` of reading a property of `null`. -/
def nullPropertyError : JsError := ⟨"Cannot read properties of null (reading 'answer')"⟩

/-- The `TypeError` of `processText` on a value that has no `replace`. -/
def notAFunctionError : JsError := ⟨"text.replace is not a function"⟩

/-- The message of the error thrown for a non-success status. -/
def apiErrorMessage (status : Nat) (statusText body : String) : String :=
  "API error: " ++ toString status ++ " " ++ statusText ++ " - " ++ body

/-- The request `fetchLLMResponse(userMessage)` sends. -/
def requestOf (σ : State) (userMessage : String) : Request :=
  { question := userMessage,
    personality_id := if σ.currentPersona = .professor then "dr_gasnelio" else "ga" }

/-- The part of `fetchLLMResponse` after `fetch` settles: every error is
rethrown as it is. -/
def fetchLLMResponse : FetchOutcome → Except JsError Response
  | .rejected e => .error e
  | .notOk status statusText body => .error ⟨apiErrorMessage status statusText body⟩
  | .badJson e => .error e
  | .ok .null => .error nullPropertyError
  | .ok .plain => .ok (.bare "Desculpe, não consegui processar sua pergunta. Tente novamente.")
  | .ok (.object r) =>
    if r.answer.truthy then .ok (.result r)
    else .ok (.bare "Desculpe, não consegui processar sua pergunta. Tente novamente.")

/-- `showTypingIndicator()`. -/
def showTypingIndicator (σ : State) : State :=
  { σ with chatWindow := σ.chatWindow ++ [.typingIndicator σ.currentPersona] }

/-- The element is a typing indicator. -/
def Node.isTyping : Node → Bool
  | .typingIndicator _ => true
  | .bubble _ _ _ _ => false

/-- Remove the first element satisfying `f`. -/
def removeFirst (f : Node → Bool) : List Node → List Node
  | [] => []
  | n :: ns => if f n then ns else n :: removeFirst f ns

/-- `hideTypingIndicator()`: remove the element with id `typing-indicator`. -/
def hideTypingIndicator (σ : State) : State :=
  { σ with chatWindow := removeFirst Node.isTyping σ.chatWindow }

/-- `updateUIState(processing)`. -/
def updateUIState (σ : State) (processing : Bool) : State :=
  { σ with inputDisabled := processing,
           statusText := if processing then "Aguardando resposta..." else "Online" }

/-- `showError(message)`. -/
def showError (σ : State) (message : String) : State :=
  { σ with errorContainer := some message }

/-- The text of the bot message for a reply without an answer. -/
def noAnswerText : String :=
  "Nenhuma resposta encontrada para sua pergunta. Tente reformular ou perguntar de outra forma."

/-- The text of the bot message for a failed call. -/
def technicalFailureText : String :=
  "Desculpe, não consegui processar sua pergunta devido a um erro técnico."

/-- The three guidance texts of the catch block. -/
def connectivityGuidance : String :=
  "Erro de conexão com o servidor. Verifique sua internet ou tente novamente mais tarde."

/-- The guidance for an error of the service. -/
def serverGuidance : String :=
  "Erro interno do servidor. Tente novamente em alguns minutos."

/-- The guidance for any other error. -/
def genericGuidance : String :=
  "Erro inesperado. Tente recarregar a página ou reformular sua pergunta."

/-- The tail every banner ends with. -/
def bannerSuffix : String :=
  " Se o problema persistir, entre em contato com o doutorando Nélio Gomes."

/-- The choice of `msg` in the catch block of `processBotResponse`. -/
def errorGuidance (error : JsError) : String :=
  if error.message != "" && includes error.message "Failed to fetch" then connectivityGuidance
  else if error.message != "" && includes error.message "API error" then serverGuidance
  else genericGuidance

/-- The body of the `try` block after `fetchLLMResponse` has returned. -/
def trySuccess (now : Clock) (σ : State) (responseObj : Response) : Except JsError State :=
  let σ1 := hideTypingIndicator σ
  match responseObj with
  | .bare _ =>
    .ok (addMessage now σ1 noAnswerText "bot" { confidence := .num 0, source := .undefined })
  | .result r =>
    match (if r.answer.truthy then r.answer else JVal.object "") with
    | .str s =>
      let processedText := processText s
      if !r.answer.truthy || trim s == "" || r.source == .str "no_answer" then
        .ok (addMessage now σ1 noAnswerText "bot" { confidence := .num 0, source := r.source })
      else
        .ok (addMessage now σ1 processedText "bot"
          { confidence := r.confidence, source := r.source, personality := r.personality })
    | _ => .error notAFunctionError

/-- The whole `try` block once the network call has settled. -/
def tryBlock (now : Clock) (σ : State) (o : FetchOutcome) : Except JsError State :=
  match fetchLLMResponse o with
  | .error e => .error e
  | .ok responseObj => trySuccess now σ responseObj

/-- The `catch` block. -/
def catchBlock (now : Clock) (σ : State) (error : JsError) : State :=
  let σ1 := hideTypingIndicator σ
  let σ2 := showError σ1 (errorGuidance error ++ bannerSuffix)
  addMessage now σ2 technicalFailureText "bot" { confidence := .num 0, source := .str "erro" }

/-- The `finally` block. -/
def finallyBlock (σ : State) : State :=
  updateUIState { σ with isProcessing := false } false

/-- The part of `processBotResponse(message)` run at the call: the flag is
raised and the request goes out. -/
def processBotResponseStart (σ : State) (message : String) : State :=
  let σ1 := showTypingIndicator (updateUIState { σ with isProcessing := true } true)
  { σ1 with requests := σ1.requests ++ [requestOf σ1 message] }

/-- The part of `processBotResponse` run when the network call settles:
`try`, `catch` on a throw, `finally` on every path. The `try` block changes
the state before a throw only by hiding the indicator, which the `catch`
block does again. -/
def processBotResponseEnd (now : Clock) (σ : State) (o : FetchOutcome) : State :=
  match tryBlock now σ o with
  | .ok σ1 => finallyBlock σ1
  | .error e => finallyBlock (catchBlock now σ e)

/-- The part of `handleSubmit` run at the event: dropped while a request is
in flight or when the trimmed input is empty; else the user message is added
and `processBotResponse` is called. -/
def handleSubmit (now : Clock) (σ : State) : State :=
  if σ.isProcessing then σ
  else
    let message := trim σ.chatInput
    if message = "" then σ
    else processBotResponseStart (addMessage now σ message "user" {}) message

/-- The part of `handleSubmit` run when `processBotResponse` has settled:
the input is cleared. -/
def handleSubmitEnd (now : Clock) (σ : State) (o : FetchOutcome) : State :=
  { processBotResponseEnd now σ o with chatInput := "" }

/-! ## The plain-text export -/

/-- The rest of the pattern `<[^>]+>` matched against the characters after a
`<`: what follows the closing `>` when the tag matches, that is when at
least one character other than `>` comes first and a `>` follows. -/
def afterTag : List Char → Option (List Char)
  | [] => none
  | c :: cs =>
    if c = '>' then none
    else
      match cs.dropWhile (fun d => d != '>') with
      | [] => none
      | _ :: rest => some rest

/-- A global replace of `<[^>]+>` by the empty string, scanning left to
right; `fuel` bounds the number of scanning steps. -/
def stripTagsAux : Nat → List Char → List Char
  | 0, cs => cs
  | _ + 1, [] => []
  | fuel + 1, c :: cs =>
    if c = '<' then
      match afterTag cs with
      | some rest => stripTagsAux fuel rest
      | none => c :: stripTagsAux fuel cs
    else c :: stripTagsAux fuel cs

/-- `.replace(/<[^>]+>/g, '')`. -/
def stripTags (cs : List Char) : List Char := stripTagsAux (cs.length + 1) cs

/-- `.replace(/\s+/g, ' ')`: every maximal run of white space becomes one
space; `inRun` tells whether the character before was white space. -/
def collapseSpaces : Bool → List Char → List Char
  | _, [] => []
  | inRun, c :: cs =>
    if isJsSpace c then
      if inRun then collapseSpaces true cs else ' ' :: collapseSpaces true cs
    else c :: collapseSpaces false cs

/-- The body of an exported entry:
`msg.text.replace(/<[^>]+>/g, '').replace(/\s+/g, ' ').trim()`. -/
def plainBody (text : String) : String :=
  ⟨trimChars (collapseSpaces false (stripTags text.data))⟩

/-- The label `sender` of an exported entry. -/
def senderLabel (msg : Message) : String :=
  if msg.sender = "user" then "Você"
  else if msg.persona = some "professor" then "Dr. Gasnelio"
  else "Gá"

/-- `getChatHistoryText(chatHistory)`. -/
def getChatHistoryText (chatHistory : List Message) : String :=
  "\n\n".intercalate
    (chatHistory.map (fun msg => senderLabel msg ++ ": " ++ plainBody msg.text))

/-- Every `<` of the list is directly followed by `>` or has no `>` after
it. -/
def NoOpenTag : List Char → Prop
  | [] => True
  | c :: cs => (c = '<' → cs.head? = some '>' ∨ '>' ∉ cs) ∧ NoOpenTag cs

/-- A tag begins at the head of the list: `<`, then one or more characters
other than `>`, then `>`. -/
def StartsTag (l : List Char) : Prop :=
  ∃ y post, l = '<' :: (y ++ '>' :: post) ∧ y ≠ [] ∧ '>' ∉ y

/-- What markup-stripped means, stated apart from `stripTags`: reading the
text from the left, where a tag begins the whole tag is left out and reading
goes on after its `>`; anywhere else the character is kept. -/
inductive MarkupStripped : List Char → List Char → Prop
  | nil : MarkupStripped [] []
  | keep (c : Char) (l out : List Char) :
      ¬ StartsTag (c :: l) → MarkupStripped l out → MarkupStripped (c :: l) (c :: out)
  | drop (l y post out : List Char) :
      l = '<' :: (y ++ '>' :: post) → y ≠ [] → '>' ∉ y → MarkupStripped post out →
      MarkupStripped l out

/-- The words of a text, `cur` being the word read so far: the maximal runs
of characters that are not white space, in order. -/
def wordsAux : List Char → List Char → List (List Char)
  | cur, [] => if cur = [] then [] else [cur]
  | cur, c :: cs =>
    if isJsSpace c then
      if cur = [] then wordsAux [] cs else cur :: wordsAux [] cs
    else wordsAux (cur ++ [c]) cs

/-- The words of a text. -/
def wordsOf (l : List Char) : List (List Char) := wordsAux [] l

/-! ## Statements about runs -/

/-- The last `n` entries of a list: `l.slice(l.length - n)`. -/
def lastN (n : Nat) (l : List α) : List α := l.drop (l.length - n)

/-- The arguments of one `addMessage` call. -/
structure Call where
  text : String
  sender : String
  meta : MetaInfo
  deriving DecidableEq, Repr

/-- Call `addMessage` once for every entry, in order. -/
def addMessages (now : Clock) (σ : State) : List Call → State
  | [] => σ
  | c :: cs => addMessages now (addMessage now σ c.text c.sender c.meta) cs

/-- The records a run of `addMessage` calls creates under persona `p`, the
first one stamped with clock reading `k`. -/
def recordsOf (now : Clock) (p : Persona) (k : Nat) : List Call → List Message
  | [] => []
  | c :: cs =>
    { text := c.text, sender := c.sender, persona := some p.id, timestamp := now k,
      meta := c.meta } :: recordsOf now p (k + 1) cs

/-- The greeting record `init()` pushes for persona `p` at clock reading `k`. -/
def greeting (now : Clock) (p : Persona) (k : Nat) : Message :=
  { text := (personas p).welcome, sender := "bot", persona := some p.id,
    timestamp := now k, meta := {} }

/-- A bound on the loop tests `renderLoop` still has to pass: while
`this.chatHistory` is the walked array the array stops growing at 31 entries,
afterwards it does not grow at all. -/
def remaining (arr : List Message) (i : Nat) (aliased : Bool) : Nat :=
  if aliased then max arr.length 30 + 1 - i else arr.length - i

/-- Every log in the store holds only messages tagged with the persona of
its key. -/
def StoreTagged (st : Store) : Prop :=
  ∀ (p : Persona) (log : List Message), getItem st (historyKey p) = some (.json log) →
    ∀ m ∈ log, m.persona = some p.id

/-- Every message of the in-memory log is tagged with the current persona. -/
def HistoryTagged (σ : State) : Prop :=
  ∀ m ∈ σ.chatHistory, m.persona = some σ.currentPersona.id

/-- One event of the page: a reload, a click on the persona toggle, typing
into the input, a submit event, the settling of the request in flight, the
timer that clears the error banner. -/
inductive Step (now : Clock) : State → State → Prop
  | reload {σ σ1 : State} :
      construct now σ.localStorage σ.clock σ.requests = some σ1 → Step now σ σ1
  | toggle {σ σ1 : State} : togglePersona now σ = some σ1 → Step now σ σ1
  | typing (σ : State) (value : String) : Step now σ { σ with chatInput := value }
  | submit (σ : State) : Step now σ (handleSubmit now σ)
  | settle (σ : State) (o : FetchOutcome) :
      σ.isProcessing = true → Step now σ (handleSubmitEnd now σ o)
  | dismiss (σ : State) : Step now σ { σ with errorContainer := none }

/-- The states the page can be in, starting from a first load on the empty
store. -/
inductive Reachable (now : Clock) : State → Prop
  | start {σ : State} (k : Nat) : construct now emptyStore k [] = some σ → Reachable now σ
  | step {σ σ1 : State} : Reachable now σ → Step now σ σ1 → Reachable now σ1

/-- The record of the user message `handleSubmit` appends in state `σ`. -/
def userMessage (now : Clock) (σ : State) : Message :=
  { text := trim σ.chatInput, sender := "user", persona := some σ.currentPersona.id,
    timestamp := now σ.clock, meta := {} }

/-- The bot record appended for a reply without an answer, at clock reading
`k`, with the source tag `src` it carries. -/
def noAnswerMessage (now : Clock) (p : Persona) (k : Nat) (src : JVal) : Message :=
  { text := noAnswerText, sender := "bot", persona := some p.id, timestamp := now k,
    meta := { confidence := .num 0, source := src } }

/-- The bot record appended after a failed call, at clock reading `k`. -/
def failureMessage (now : Clock) (p : Persona) (k : Nat) : Message :=
  { text := technicalFailureText, sender := "bot", persona := some p.id, timestamp := now k,
    meta := { confidence := .num 0, source := .str "erro" } }

/-- A reply object of the documented shape (the answer, when present, is
text) that carries no answer: the answer is missing or empty (falsy), or it
is text that is white space only, or it is text and the source is
`no_answer`. -/
def Reply.noAnswer (r : Reply) : Prop :=
  r.answer.truthy = false ∨
    ∃ s, r.answer = .str s ∧ (trim s = "" ∨ r.source = .str "no_answer")

/-- The loop of `renderHistory` with a counter: the same walk as
`renderLoop`, returning also how many times the loop body ran. -/
def renderLoopCount (now : Clock) : Nat → List Message → Nat → Bool → State → Option (State × Nat)
  | 0, _, _, _, _ => none
  | fuel + 1, arr, i, aliased, σ =>
    match arr.get? i with
    | none => some (σ, 0)
    | some msg =>
      if skipped σ.currentPersona msg then
        (renderLoopCount now fuel arr (i + 1) aliased σ).map (fun r => (r.1, r.2 + 1))
      else
        let pushed := pushMessage now σ msg.text msg.sender msg.meta
        let arr1 := if aliased then pushed.chatHistory else arr
        let aliased1 := aliased && !decide (pushed.chatHistory.length > 30)
        (renderLoopCount now fuel arr1 (i + 1) aliased1 (saveHistory pushed)).map
          (fun r => (r.1, r.2 + 1))

/-- `renderHistory()` with the number of times its loop body ran. -/
def renderHistoryCount (now : Clock) (σ : State) : Option (State × Nat) :=
  renderLoopCount now (σ.chatHistory.length + 32) σ.chatHistory 0 true { σ with chatWindow := [] }

/-! ## Concrete inputs used in examples -/

/-- A clock whose readings are numbered. -/
def sampleClock : Clock := fun k => "t" ++ toString k

/-- Thirty-one user messages. -/
def sampleCalls : List Call :=
  (List.range 31).map (fun i => { text := "m" ++ toString i, sender := "user", meta := {} })

/-- A widget whose store holds a saved selection, a text that is no JSON
under the professor's log key and a log of the other persona. -/
def sampleCorrupt : State :=
  fresh (setItem (setItem (setItem emptyStore "teseWebPersona" (.raw "professor"))
    "teseWebChatHistory_amigo" (.json [greeting sampleClock .amigo 0]))
    "teseWebChatHistory_professor" (.raw "not valid json")) 1 []

/-- The widget after a first page load on the empty store. -/
def sampleLoaded : State :=
  addMessage sampleClock (fresh emptyStore 0 []) (personas .professor).welcome "bot" {}

/-- The user has typed a question and submitted it: a request is in flight. -/
def sampleSubmitted : State :=
  handleSubmit sampleClock { sampleLoaded with chatInput := " Olá " }

/-- The persona toggle is clicked while the request is in flight. -/
def sampleToggled : State :=
  addMessage sampleClock { loadHistory (toggleSelect sampleSubmitted) with chatWindow := [] }
    (personas .amigo).welcome "bot" {}

/-- A reply with an answer, confidence 0.75 and source `pdf`. -/
def sampleReply : Reply :=
  { answer := .str "Oi", confidence := .num 0x3FE8000000000000, source := .str "pdf",
    personality := .str "dr_gasnelio" }

/-- The request settles after the toggle. -/
def sampleSettled : State :=
  handleSubmitEnd sampleClock sampleToggled (.ok (.object sampleReply))

/-- A widget showing the professor whose stored log is the empty list. -/
def sampleEmptyLog : State :=
  fresh (setItem emptyStore "teseWebChatHistory_professor" (.json [])) 0 []

/-- The widget after a first load with white space typed into the input. -/
def sampleBlank : State := { sampleLoaded with chatInput := " \n\t " }

/-- The widget after a first load with a question typed into the input. -/
def sampleTyped : State := { sampleLoaded with chatInput := " Olá " }

/-- The reply of the scenario: an empty answer with source `no_answer`. -/
def sampleNoAnswer : Reply :=
  { answer := .str "", confidence := .num 0, source := .str "no_answer",
    personality := .str "dr_gasnelio" }

/-- The record the settled request appends in `sampleSettled`. -/
def sampleReplyMessage : Message :=
  { text := "Oi", sender := "bot", persona := some "amigo", timestamp := "t3",
    meta := { confidence := .num 0x3FE8000000000000, source := .str "pdf",
              personality := .str "dr_gasnelio" } }

/-- A log with markup, line breaks and both personas. -/
def sampleExport : List Message :=
  [ { text := "  Olá,\n<b>doutor</b>  ", sender := "user", persona := some "professor",
      timestamp := "t0", meta := {} },
    { text := "Oi<br>tudo <em>bem</em>? a <> b", sender := "bot", persona := some "professor",
      timestamp := "t1", meta := {} },
    { text := "<<i>x> <", sender := "bot", persona := some "amigo", timestamp := "t2",
      meta := {} } ]

/-- A reply whose source is `no_answer` and whose answer is the number 5,
kept as the bit pattern of 5.0. -/
def sampleNumericAnswer : Reply :=
  { answer := .num 0x4014000000000000, confidence := .num 0, source := .str "no_answer",
    personality := .str "dr_gasnelio" }

/-- A reply whose source is `no_answer` and whose answer is the fixed
no-answer text itself. -/
def sampleEchoAnswer : Reply :=
  { answer := .str noAnswerText, confidence := .num 0, source := .str "no_answer",
    personality := .str "dr_gasnelio" }

/-! ## Lists cut to their last entries -/

theorem lastN_append_lastN (n : Nat) (l r : List α) :
    lastN n (lastN n l ++ r) = lastN n (l ++ r) := by
  unfold lastN
  rcases le_total l.length n with h | h
  · simp [Nat.sub_eq_zero_of_le h]
  · have h2 : (List.drop (l.length - n) l ++ r).length - n = r.length := by
      simp; omega
    have h3 : (l ++ r).length - n = (l.length - n) + r.length := by simp; omega
    have h4 : List.drop (l.length - n) (l ++ r) = List.drop (l.length - n) l ++ r :=
      List.drop_append_of_le_length (Nat.sub_le _ _)
    rw [h2, h3, ← List.drop_drop, h4]

theorem lastN_of_length_le (n : Nat) (l : List α) (h : l.length ≤ n) : lastN n l = l := by
  simp [lastN, Nat.sub_eq_zero_of_le h]

theorem length_lastN (n : Nat) (l : List α) : (lastN n l).length = min n l.length := by
  simp [lastN]; omega

theorem mem_of_mem_lastN {n : Nat} {l : List α} {a : α} (h : a ∈ lastN n l) : a ∈ l :=
  List.mem_of_mem_drop h

/-! ## What `saveHistory` and `addMessage` do to each field -/

theorem saveHistory_chatHistory (σ : State) :
    (saveHistory σ).chatHistory = lastN 30 σ.chatHistory := by
  unfold saveHistory lastN
  by_cases h : σ.chatHistory.length > 30
  · simp [h]
  · have : σ.chatHistory.length - 30 = 0 := by omega
    simp [h, this]

theorem saveHistory_localStorage (σ : State) :
    (saveHistory σ).localStorage =
      setItem σ.localStorage (historyKey σ.currentPersona) (.json (lastN 30 σ.chatHistory)) := by
  rw [← saveHistory_chatHistory]; rfl

theorem addMessage_chatHistory (now : Clock) (σ : State) (t s : String) (m : MetaInfo) :
    (addMessage now σ t s m).chatHistory =
      lastN 30 (σ.chatHistory ++ [messageData now σ t s m]) := by
  unfold addMessage; rw [saveHistory_chatHistory]; rfl

theorem addMessage_localStorage (now : Clock) (σ : State) (t s : String) (m : MetaInfo) :
    (addMessage now σ t s m).localStorage =
      setItem σ.localStorage (historyKey σ.currentPersona)
        (.json (lastN 30 (σ.chatHistory ++ [messageData now σ t s m]))) := by
  unfold addMessage; rw [saveHistory_localStorage]; rfl

theorem addMessage_currentPersona (now : Clock) (σ : State) (t s : String) (m : MetaInfo) :
    (addMessage now σ t s m).currentPersona = σ.currentPersona := rfl

theorem addMessage_clock (now : Clock) (σ : State) (t s : String) (m : MetaInfo) :
    (addMessage now σ t s m).clock = σ.clock + 1 := rfl

theorem addMessage_isProcessing (now : Clock) (σ : State) (t s : String) (m : MetaInfo) :
    (addMessage now σ t s m).isProcessing = σ.isProcessing := rfl

theorem addMessage_requests (now : Clock) (σ : State) (t s : String) (m : MetaInfo) :
    (addMessage now σ t s m).requests = σ.requests := rfl

theorem getItem_setItem_same (st : Store) (k : String) (v : Text) :
    getItem (setItem st k v) k = some v := by
  simp [getItem, setItem]

theorem getItem_setItem_ne (st : Store) {k j : String} (v : Text) (h : j ≠ k) :
    getItem (setItem st k v) j = getItem st j := by
  simp [getItem, setItem, h]

theorem addMessage_stored (now : Clock) (σ : State) (t s : String) (m : MetaInfo) :
    getItem (addMessage now σ t s m).localStorage (historyKey σ.currentPersona) =
      some (.json (addMessage now σ t s m).chatHistory) := by
  rw [addMessage_localStorage, addMessage_chatHistory, getItem_setItem_same]

/-! ## C1: the log keeps the last 30 appended messages -/

theorem addMessages_currentPersona (now : Clock) (cs : List Call) (σ : State) :
    (addMessages now σ cs).currentPersona = σ.currentPersona := by
  induction cs generalizing σ with
  | nil => rfl
  | cons c cs ih => simp only [addMessages, ih, addMessage_currentPersona]

theorem addMessages_chatHistory (now : Clock) (cs : List Call) (σ : State) (hne : cs ≠ []) :
    (addMessages now σ cs).chatHistory =
      lastN 30 (σ.chatHistory ++ recordsOf now σ.currentPersona σ.clock cs) := by
  induction cs generalizing σ with
  | nil => exact absurd rfl hne
  | cons c cs ih =>
    by_cases hcs : cs = []
    · subst hcs
      simp only [addMessages, recordsOf, addMessage_chatHistory, messageData]
    · simp only [addMessages, recordsOf]
      rw [ih _ hcs, addMessage_chatHistory, lastN_append_lastN, addMessage_currentPersona,
        addMessage_clock, List.append_assoc]
      rfl

theorem addMessages_stored (now : Clock) (cs : List Call) (σ : State) (hne : cs ≠ []) :
    getItem (addMessages now σ cs).localStorage (historyKey σ.currentPersona) =
      some (.json (addMessages now σ cs).chatHistory) := by
  induction cs generalizing σ with
  | nil => exact absurd rfl hne
  | cons c cs ih =>
    by_cases hcs : cs = []
    · subst hcs
      exact addMessage_stored now σ c.text c.sender c.meta
    · simp only [addMessages]
      have := ih (addMessage now σ c.text c.sender c.meta) hcs
      rwa [addMessage_currentPersona] at this

theorem length_recordsOf (now : Clock) (p : Persona) (cs : List Call) (k : Nat) :
    (recordsOf now p k cs).length = cs.length := by
  induction cs generalizing k with
  | nil => rfl
  | cons c cs ih => simp [recordsOf, ih]

/-- C1: when more than 30 messages are appended one at a time with
`addMessage` to an empty log, the in-memory log and the log stored under the
current persona's key are both exactly the records of the last 30 calls, in
the order of the calls. -/
theorem addMessages_keeps_last_thirty (now : Clock) (σ : State) (cs : List Call)
    (hempty : σ.chatHistory = []) (hN : 30 < cs.length) :
    (addMessages now σ cs).chatHistory =
        (recordsOf now σ.currentPersona σ.clock cs).drop (cs.length - 30) ∧
      getItem (addMessages now σ cs).localStorage (historyKey σ.currentPersona) =
        some (.json ((recordsOf now σ.currentPersona σ.clock cs).drop (cs.length - 30))) ∧
      ((recordsOf now σ.currentPersona σ.clock cs).drop (cs.length - 30)).length = 30 := by
  have hne : cs ≠ [] := by
    intro h; subst h; simp at hN
  have hc := addMessages_chatHistory now cs σ hne
  rw [hempty, List.nil_append] at hc
  have hc2 : (addMessages now σ cs).chatHistory =
      (recordsOf now σ.currentPersona σ.clock cs).drop (cs.length - 30) := by
    rw [hc, lastN, length_recordsOf]
  refine ⟨hc2, ?_, ?_⟩
  · rw [addMessages_stored now cs σ hne, hc2]
  · rw [List.length_drop, length_recordsOf]; omega

/-- The hypotheses of C1 hold for 31 calls on a fresh widget, and the log
then starts at the second call. -/
theorem addMessages_keeps_last_thirty_witness :
    (addMessages sampleClock (fresh emptyStore 0 []) sampleCalls).chatHistory =
        (recordsOf sampleClock .professor 0 sampleCalls).drop 1 ∧
      getItem (addMessages sampleClock (fresh emptyStore 0 []) sampleCalls).localStorage
          (historyKey .professor) =
        some (.json ((recordsOf sampleClock .professor 0 sampleCalls).drop 1)) ∧
      ((recordsOf sampleClock .professor 0 sampleCalls).drop 1).length = 30 :=
  addMessages_keeps_last_thirty sampleClock (fresh emptyStore 0 []) sampleCalls rfl (by decide)

/-! ## C2: the first page load -/

set_option maxRecDepth 100000 in
theorem processText_welcome (p : Persona) :
    processText (personas p).welcome = (personas p).welcome := by
  cases p <;> decide

/-- C2 as stated fails: after the first page load on an empty store the log
is not empty and a log is stored under the professor's key. -/
theorem fresh_init_log_not_empty :
    ¬ ∃ σ, construct sampleClock emptyStore 0 [] = some σ ∧ σ.chatHistory.length = 0 ∧
      getItem σ.localStorage "teseWebChatHistory_professor" = none := by
  rintro ⟨σ, h, hl, -⟩
  have h1 : (construct sampleClock emptyStore 0 []).map (fun τ => τ.chatHistory.length) = some 1 := by
    decide
  rw [h] at h1
  simp at h1
  omega

/-- C2, amended: on a store with no saved persona and no saved professor log,
the page load displays exactly one bot message with the professor's welcome
text, and that greeting is appended and persisted: `chatHistory` and the log
stored under `teseWebChatHistory_professor` both hold exactly the greeting. -/
theorem init_fresh_store (now : Clock) (st : Store) (k : Nat) (reqs : List Request)
    (hp : getItem st personaKey = none)
    (hh : getItem st "teseWebChatHistory_professor" = none) :
    ∃ σ, construct now st k reqs = some σ ∧
      σ.currentPersona = .professor ∧
      σ.chatWindow = [.bubble (personas .professor).welcome "bot" (some .professor) {}] ∧
      σ.chatHistory = [greeting now .professor k] ∧
      getItem σ.localStorage "teseWebChatHistory_professor" =
        some (.json [greeting now .professor k]) := by
  have hh2 : getItem st (historyKey .professor) = none := hh
  have e1 : loadPersona { fresh st k reqs with chatWindow := [] } = fresh st k reqs := by
    simp [loadPersona, fresh, hp]
  have e2 : loadHistory (fresh st k reqs) = fresh st k reqs := by
    simp [loadHistory, fresh, hh2]
  refine ⟨addMessage now (fresh st k reqs) (personas .professor).welcome "bot" {}, ?_, rfl, ?_, ?_, ?_⟩
  · simp only [construct, init, e1, e2]
    simp [fresh]
  · simp [addMessage, saveHistory, pushMessage, fresh, messageNode, processText_welcome]
  · rw [addMessage_chatHistory]; rfl
  · have := addMessage_stored now (fresh st k reqs) (personas .professor).welcome "bot" {}
    rw [addMessage_chatHistory] at this
    exact this

/-- The hypotheses of the amended C2 hold for the empty store. -/
theorem init_fresh_store_witness :
    ∃ σ, construct sampleClock emptyStore 0 [] = some σ ∧
      σ.currentPersona = .professor ∧
      σ.chatWindow = [.bubble (personas .professor).welcome "bot" (some .professor) {}] ∧
      σ.chatHistory = [greeting sampleClock .professor 0] ∧
      getItem σ.localStorage "teseWebChatHistory_professor" =
        some (.json [greeting sampleClock .professor 0]) :=
  init_fresh_store sampleClock emptyStore 0 [] rfl rfl

/-! ## C6: a stored log that cannot be parsed -/

theorem loadHistory_none (σ : State)
    (h : getItem σ.localStorage (historyKey σ.currentPersona) = none) :
    loadHistory σ = { σ with chatHistory := [] } := by
  unfold loadHistory; rw [h]

theorem loadHistory_json (σ : State) {log : List Message}
    (h : getItem σ.localStorage (historyKey σ.currentPersona) = some (.json log)) :
    loadHistory σ = { σ with chatHistory := log } := by
  unfold loadHistory; rw [h]

theorem loadHistory_raw_empty (σ : State)
    (h : getItem σ.localStorage (historyKey σ.currentPersona) = some (.raw "")) :
    loadHistory σ = { σ with chatHistory := [] } := by
  unfold loadHistory; rw [h]; simp

theorem loadHistory_raw (σ : State) {s : String}
    (h : getItem σ.localStorage (historyKey σ.currentPersona) = some (.raw s)) (hs : s ≠ "") :
    loadHistory σ =
      { σ with localStorage := removeItem σ.localStorage (historyKey σ.currentPersona),
               chatHistory := [] } := by
  unfold loadHistory; rw [h]; simp [hs]

/-- C6 as stated fails: the empty text cannot be parsed as JSON, yet
`loadHistory` leaves it under its key, since it never hands it to
`JSON.parse`. -/
theorem loadHistory_keeps_empty_text :
    getItem (loadHistory (fresh (setItem emptyStore "teseWebChatHistory_professor" (.raw ""))
      0 [])).localStorage "teseWebChatHistory_professor" = some (.raw "") := by
  decide

/-- C6, amended: for every persona and every text under its log key that
`JSON.parse` rejects, `loadHistory` returns with an empty `chatHistory`; when
the text is not empty the persona's log key is removed and every other key is
left as it was; when the text is empty the whole store is left as it was. -/
theorem loadHistory_unparsable (σ : State) (s : String)
    (h : getItem σ.localStorage (historyKey σ.currentPersona) = some (.raw s)) :
    (loadHistory σ).chatHistory = [] ∧
      (s ≠ "" →
        getItem (loadHistory σ).localStorage (historyKey σ.currentPersona) = none ∧
        ∀ k, k ≠ historyKey σ.currentPersona →
          getItem (loadHistory σ).localStorage k = getItem σ.localStorage k) ∧
      (s = "" → (loadHistory σ).localStorage = σ.localStorage) := by
  by_cases hs : s = ""
  · subst hs
    rw [loadHistory_raw_empty σ h]
    exact ⟨rfl, fun h0 => absurd rfl h0, fun _ => rfl⟩
  · rw [loadHistory_raw σ h hs]
    refine ⟨rfl, fun _ => ⟨?_, ?_⟩, fun h0 => absurd h0 hs⟩
    · simp [getItem, removeItem]
    · intro k hk
      simp [getItem, removeItem, hk]

/-- The amended C6 at the text `not valid json` under the professor's key,
with a saved selection and a log of the other persona in the store. -/
theorem loadHistory_unparsable_witness :
    (loadHistory sampleCorrupt).chatHistory = [] ∧
      getItem (loadHistory sampleCorrupt).localStorage "teseWebChatHistory_professor" = none ∧
      getItem (loadHistory sampleCorrupt).localStorage "teseWebPersona" =
        some (.raw "professor") ∧
      getItem (loadHistory sampleCorrupt).localStorage "teseWebChatHistory_amigo" =
        some (.json [greeting sampleClock .amigo 0]) :=
  have h := loadHistory_unparsable sampleCorrupt "not valid json" (by decide)
  ⟨h.1, (h.2.1 (by decide)).1,
    ((h.2.1 (by decide)).2 "teseWebPersona" (by decide)).trans (by decide),
    ((h.2.1 (by decide)).2 "teseWebChatHistory_amigo" (by decide)).trans (by decide)⟩

/-! ## C4: the in-flight flag is lowered on every path -/

/-- C4: whatever the state when the gateway call settles and whatever its
outcome (a reply object, a bare string, a rejected or failed call, a reply
that makes the success branch throw), `isProcessing` is false when
`processBotResponse` completes, hence when `handleSubmit` completes; before
that, an accepted submission has raised the flag. -/
theorem isProcessing_false_after_settle (now : Clock) (σ : State) (o : FetchOutcome) :
    (processBotResponseEnd now σ o).isProcessing = false ∧
      (handleSubmitEnd now σ o).isProcessing = false ∧
      (handleSubmitEnd now (handleSubmit now σ) o).isProcessing = false := by
  have key : ∀ τ : State, (processBotResponseEnd now τ o).isProcessing = false := by
    intro τ
    unfold processBotResponseEnd
    split <;> rfl
  exact ⟨key σ, key σ, key _⟩

/-! ## The loop of `renderHistory` -/

theorem renderLoop_preserves (now : Clock) (P : State → Prop)
    (hP : ∀ (τ : State) (t s : String) (m : MetaInfo), P τ → P (addMessage now τ t s m)) :
    ∀ (fuel : Nat) (arr : List Message) (i : Nat) (al : Bool) (σ σ1 : State),
      P σ → renderLoop now fuel arr i al σ = some σ1 → P σ1 := by
  intro fuel
  induction fuel with
  | zero => intro arr i al σ σ1 _ h; simp [renderLoop] at h
  | succ fuel ih =>
    intro arr i al σ σ1 hσ h
    unfold renderLoop at h
    cases hget : arr.get? i with
    | none =>
      rw [hget] at h
      simp only [Option.some.injEq] at h
      exact h ▸ hσ
    | some msg =>
      rw [hget] at h
      simp only at h
      split at h
      · exact ih _ _ _ _ _ hσ h
      · exact ih _ _ _ _ _ (hP σ msg.text msg.sender msg.meta hσ) h

theorem renderLoop_total (now : Clock) :
    ∀ (fuel : Nat) (arr : List Message) (i : Nat) (al : Bool) (σ : State),
      (al = true → σ.chatHistory = arr) → remaining arr i al < fuel →
      ∃ σ1, renderLoop now fuel arr i al σ = some σ1 := by
  intro fuel
  induction fuel with
  | zero => intro arr i al σ _ h; omega
  | succ fuel ih =>
    intro arr i al σ hal hrem
    unfold renderLoop
    cases hget : arr.get? i with
    | none => exact ⟨σ, rfl⟩
    | some msg =>
      have hi : i < arr.length := by
        by_contra hc
        rw [List.get?_eq_none.mpr (by omega)] at hget
        exact absurd hget (by simp)
      simp only
      split
      · apply ih _ _ _ _ hal
        unfold remaining at hrem ⊢
        cases al <;> simp at hrem ⊢ <;> omega
      · cases al with
        | false =>
          apply ih
          · intro h; exact absurd h (by simp)
          · simp [remaining] at hrem ⊢; omega
        | true =>
          have hc : σ.chatHistory = arr := hal rfl
          have hlen : (pushMessage now σ msg.text msg.sender msg.meta).chatHistory.length =
              arr.length + 1 := by simp [pushMessage, hc]
          apply ih
          · intro h2
            simp only [Bool.true_and, Bool.not_eq_true', decide_eq_false_iff_not, not_lt,
              if_true] at h2 ⊢
            rw [saveHistory_chatHistory, lastN_of_length_le _ _ h2]
          · by_cases h30 : arr.length + 1 > 30
            · simp [remaining, hlen, h30] at hrem ⊢; omega
            · simp [remaining, hlen, h30] at hrem ⊢; omega

theorem renderHistory_total (now : Clock) (σ : State) :
    ∃ σ1, renderHistory now σ = some σ1 := by
  unfold renderHistory
  apply renderLoop_total
  · intro _; rfl
  · simp [remaining]

theorem renderHistory_preserves (now : Clock) (P : State → Prop)
    (hP : ∀ (τ : State) (t s : String) (m : MetaInfo), P τ → P (addMessage now τ t s m))
    (σ σ1 : State) (h0 : P { σ with chatWindow := [] }) (h : renderHistory now σ = some σ1) :
    P σ1 :=
  renderLoop_preserves now P hP _ _ _ _ _ _ h0 h

/-! ## C5: stored logs hold only messages of their own persona -/

theorem historyKey_injective {p q : Persona} (h : historyKey p = historyKey q) : p = q := by
  cases p <;> cases q <;> first | rfl | (exact absurd h (by decide))

theorem historyKey_ne_personaKey (p : Persona) : historyKey p ≠ personaKey := by
  cases p <;> decide

theorem StoreTagged_setItem_history {st : Store} {p : Persona} {log : List Message}
    (hst : StoreTagged st) (hlog : ∀ m ∈ log, m.persona = some p.id) :
    StoreTagged (setItem st (historyKey p) (.json log)) := by
  intro q l hq m hm
  by_cases hk : historyKey q = historyKey p
  · have hqp : q = p := historyKey_injective hk
    subst hqp
    rw [getItem_setItem_same] at hq
    have : l = log := by simpa using hq.symm
    subst this
    exact hlog m hm
  · rw [getItem_setItem_ne _ _ hk] at hq
    exact hst q l hq m hm

theorem StoreTagged_setItem_raw {st : Store} (k s : String) (hst : StoreTagged st) :
    StoreTagged (setItem st k (.raw s)) := by
  intro q l hq m hm
  by_cases hk : historyKey q = k
  · subst hk
    rw [getItem_setItem_same] at hq
    simp at hq
  · rw [getItem_setItem_ne _ _ hk] at hq
    exact hst q l hq m hm

theorem StoreTagged_removeItem {st : Store} (k : String) (hst : StoreTagged st) :
    StoreTagged (removeItem st k) := by
  intro q l hq m hm
  by_cases hk : historyKey q = k
  · simp [getItem, removeItem, hk] at hq
  · have : getItem st (historyKey q) = some (.json l) := by
      simpa [getItem, removeItem, hk] using hq
    exact hst q l this m hm

theorem addMessage_tagged (now : Clock) (σ : State) (t s : String) (m : MetaInfo)
    (h : StoreTagged σ.localStorage ∧ HistoryTagged σ) :
    StoreTagged (addMessage now σ t s m).localStorage ∧ HistoryTagged (addMessage now σ t s m) := by
  have hh : ∀ x ∈ (addMessage now σ t s m).chatHistory, x.persona = some σ.currentPersona.id := by
    intro x hx
    rw [addMessage_chatHistory] at hx
    rcases List.mem_append.mp (mem_of_mem_lastN hx) with h1 | h1
    · exact h.2 x h1
    · rw [List.mem_singleton.mp h1]; rfl
  refine ⟨?_, hh⟩
  rw [addMessage_localStorage, ← addMessage_chatHistory]
  exact StoreTagged_setItem_history h.1 hh

theorem loadHistory_localStorage_tagged (σ : State) (h : StoreTagged σ.localStorage) :
    StoreTagged (loadHistory σ).localStorage := by
  unfold loadHistory
  split
  · exact h
  · exact h
  · split
    · exact h
    · exact StoreTagged_removeItem _ h

theorem loadHistory_currentPersona (σ : State) :
    (loadHistory σ).currentPersona = σ.currentPersona := by
  unfold loadHistory
  split
  · rfl
  · rfl
  · split <;> rfl

theorem loadHistory_tagged (σ : State) (h : StoreTagged σ.localStorage) :
    StoreTagged (loadHistory σ).localStorage ∧ HistoryTagged (loadHistory σ) := by
  refine ⟨loadHistory_localStorage_tagged σ h, ?_⟩
  intro m hm
  rw [loadHistory_currentPersona]
  cases hget : getItem σ.localStorage (historyKey σ.currentPersona) with
  | none => rw [loadHistory_none σ hget] at hm; simp at hm
  | some v =>
    cases v with
    | json log =>
      rw [loadHistory_json σ hget] at hm
      exact h _ log hget m hm
    | raw s =>
      by_cases hs : s = ""
      · subst hs; rw [loadHistory_raw_empty σ hget] at hm; simp at hm
      · rw [loadHistory_raw σ hget hs] at hm; simp at hm

theorem init_tagged (now : Clock) (σ σ1 : State) (h : StoreTagged σ.localStorage)
    (hi : init now σ = some σ1) :
    StoreTagged σ1.localStorage ∧ HistoryTagged σ1 := by
  have h1 := loadHistory_tagged (loadPersona { σ with chatWindow := [] }) h
  unfold init at hi
  simp only at hi
  split at hi
  · simp only [Option.some.injEq] at hi
    rw [← hi]
    exact addMessage_tagged now _ _ _ _ h1
  · exact renderHistory_preserves now (fun τ => StoreTagged τ.localStorage ∧ HistoryTagged τ)
      (fun τ t s m hτ => addMessage_tagged now τ t s m hτ) _ _ h1 hi

theorem togglePersona_tagged (now : Clock) (σ σ1 : State) (h : StoreTagged σ.localStorage)
    (hi : togglePersona now σ = some σ1) :
    StoreTagged σ1.localStorage ∧ HistoryTagged σ1 := by
  have h1 := loadHistory_tagged (toggleSelect σ) (StoreTagged_setItem_raw _ _ h)
  unfold togglePersona at hi
  simp only at hi
  split at hi
  · simp only [Option.some.injEq] at hi
    rw [← hi]
    exact addMessage_tagged now _ _ _ _ h1
  · exact renderHistory_preserves now (fun τ => StoreTagged τ.localStorage ∧ HistoryTagged τ)
      (fun τ t s m hτ => addMessage_tagged now τ t s m hτ) _ _ h1 hi

theorem handleSubmit_tagged (now : Clock) (σ : State)
    (h : StoreTagged σ.localStorage ∧ HistoryTagged σ) :
    StoreTagged (handleSubmit now σ).localStorage ∧ HistoryTagged (handleSubmit now σ) := by
  unfold handleSubmit
  split
  · exact h
  · simp only
    split
    · exact h
    · exact addMessage_tagged now σ _ _ _ h

theorem processBotResponseEnd_tagged (now : Clock) (σ : State) (o : FetchOutcome)
    (h : StoreTagged σ.localStorage ∧ HistoryTagged σ) :
    StoreTagged (processBotResponseEnd now σ o).localStorage ∧
      HistoryTagged (processBotResponseEnd now σ o) := by
  have hadd : ∀ (t s : String) (m : MetaInfo) (e : Option String) (w : List Node),
      StoreTagged (addMessage now { σ with chatWindow := w, errorContainer := e } t s m).localStorage ∧
      HistoryTagged (addMessage now { σ with chatWindow := w, errorContainer := e } t s m) :=
    fun t s m e w => addMessage_tagged now _ t s m h
  unfold processBotResponseEnd
  cases ht : tryBlock now σ o with
  | error e => exact hadd _ _ _ _ _
  | ok σ1 =>
    simp only
    unfold tryBlock at ht
    cases hf : fetchLLMResponse o with
    | error e => rw [hf] at ht; simp at ht
    | ok r =>
      rw [hf] at ht
      simp only at ht
      unfold trySuccess at ht
      cases r with
      | bare b =>
        simp only [Except.ok.injEq] at ht
        rw [← ht]
        exact addMessage_tagged now (hideTypingIndicator σ) _ _ _ h
      | result r =>
        simp only at ht
        split at ht
        · split at ht
          · simp only [Except.ok.injEq] at ht
            rw [← ht]
            exact addMessage_tagged now (hideTypingIndicator σ) _ _ _ h
          · simp only [Except.ok.injEq] at ht
            rw [← ht]
            exact addMessage_tagged now (hideTypingIndicator σ) _ _ _ h
        · simp at ht

theorem Step_tagged (now : Clock) {σ σ1 : State} (hs : Step now σ σ1)
    (h : StoreTagged σ.localStorage ∧ HistoryTagged σ) :
    StoreTagged σ1.localStorage ∧ HistoryTagged σ1 := by
  cases hs with
  | reload hc => exact init_tagged now (fresh σ.localStorage σ.clock σ.requests) _ h.1 hc
  | toggle hc => exact togglePersona_tagged now _ _ h.1 hc
  | typing v => exact h
  | submit => exact handleSubmit_tagged now σ h
  | settle o _ => exact processBotResponseEnd_tagged now σ o h
  | dismiss => exact h

theorem Reachable_tagged (now : Clock) {σ : State} (hr : Reachable now σ) :
    StoreTagged σ.localStorage ∧ HistoryTagged σ := by
  induction hr with
  | start k hc =>
    refine init_tagged now (fresh emptyStore k []) _ ?_ hc
    intro p log hp
    simp [fresh, getItem, emptyStore] at hp
  | step _ hs ih => exact Step_tagged now hs ih

/-- C5: in every state reachable from a first load on the empty store
through reloads, persona toggles, typing, submissions and settled requests
in any order (a toggle while a request is in flight included), every message
of the log stored under persona `p`'s key has its persona field equal to
`p`. -/
theorem stored_logs_tagged (now : Clock) (σ : State) (hr : Reachable now σ) (p : Persona)
    (log : List Message) (hlog : getItem σ.localStorage (historyKey p) = some (.json log)) :
    ∀ m ∈ log, m.persona = some p.id :=
  (Reachable_tagged now hr).1 p log hlog

theorem sampleSettled_reachable : Reachable sampleClock sampleSettled := by
  have h0 : Reachable sampleClock sampleLoaded := Reachable.start 0 rfl
  have h1 : Reachable sampleClock { sampleLoaded with chatInput := " Olá " } :=
    Reachable.step h0 (Step.typing _ _)
  have h2 : Reachable sampleClock sampleSubmitted := Reachable.step h1 (Step.submit _)
  have h3 : Reachable sampleClock sampleToggled :=
    Reachable.step h2 (Step.toggle (by rfl))
  exact Reachable.step h3 (Step.settle _ _ (by rfl))

/-- C5 on a run where the persona is toggled while a request is in flight:
the reply lands in the log of the persona current when it arrives, tagged
with that persona. -/
theorem stored_logs_tagged_witness :
    getItem sampleSettled.localStorage "teseWebChatHistory_amigo" =
        some (.json [greeting sampleClock .amigo 2, sampleReplyMessage]) ∧
      (greeting sampleClock .amigo 2).persona = some "amigo" ∧
      sampleReplyMessage.persona = some "amigo" :=
  have hlog : getItem sampleSettled.localStorage (historyKey .amigo) =
      some (.json [greeting sampleClock .amigo 2, sampleReplyMessage]) := by decide
  ⟨hlog,
    stored_logs_tagged sampleClock sampleSettled sampleSettled_reachable .amigo _ hlog _
      (List.mem_cons_self _ _),
    stored_logs_tagged sampleClock sampleSettled sampleSettled_reachable .amigo _ hlog _
      (List.mem_cons_of_mem _ (List.mem_cons_self _ _))⟩

/-! ## C3: toggling the persona away and back -/

theorem togglePersona_total (now : Clock) (σ : State) :
    ∃ σ1, togglePersona now σ = some σ1 := by
  unfold togglePersona
  simp only
  split
  · exact ⟨_, rfl⟩
  · exact renderHistory_total now _

theorem togglePersona_preserves (now : Clock) (P : State → Prop)
    (hP : ∀ (τ : State) (t s : String) (m : MetaInfo), P τ → P (addMessage now τ t s m))
    (σ σ1 : State) (h0 : P { loadHistory (toggleSelect σ) with chatWindow := [] })
    (h : togglePersona now σ = some σ1) : P σ1 := by
  unfold togglePersona at h
  simp only at h
  split at h
  · simp only [Option.some.injEq] at h
    rw [← h]
    exact hP _ _ _ _ h0
  · exact renderHistory_preserves now P hP _ _ h0 h

theorem loadHistory_getItem_ne (σ : State) (k : String) (hk : k ≠ historyKey σ.currentPersona) :
    getItem (loadHistory σ).localStorage k = getItem σ.localStorage k := by
  unfold loadHistory
  split
  · rfl
  · rfl
  · split
    · rfl
    · simp [getItem, removeItem, hk]

theorem loadHistory_toggleActive (σ : State) :
    (loadHistory σ).toggleActive = σ.toggleActive := by
  unfold loadHistory
  split
  · rfl
  · rfl
  · split <;> rfl

theorem loadHistory_clock (σ : State) : (loadHistory σ).clock = σ.clock := by
  unfold loadHistory
  split
  · rfl
  · rfl
  · split <;> rfl

theorem toggleSelect_currentPersona (σ : State)
    (hsync : σ.toggleActive = decide (σ.currentPersona = .amigo)) :
    (toggleSelect σ).currentPersona ≠ σ.currentPersona ∧
      (toggleSelect σ).toggleActive = decide ((toggleSelect σ).currentPersona = .amigo) := by
  rcases σ with ⟨st, clk, reqs, cur, proc, hist, act, win, inp, dis, stat, err⟩
  simp only at hsync
  cases cur <;> simp [toggleSelect, hsync]

theorem toggleSelect_getItem_history (σ : State) (p : Persona) :
    getItem (toggleSelect σ).localStorage (historyKey p) = getItem σ.localStorage (historyKey p) :=
  getItem_setItem_ne _ _ (historyKey_ne_personaKey p)

theorem addMessage_getItem_ne (now : Clock) (σ : State) (t s : String) (m : MetaInfo)
    (k : String) (hk : k ≠ historyKey σ.currentPersona) :
    getItem (addMessage now σ t s m).localStorage k = getItem σ.localStorage k := by
  rw [addMessage_localStorage, getItem_setItem_ne _ _ hk]

/-- A stored log that is the empty list does not survive the round trip
either: the toggle back greets, and the greeting is appended and stored. -/
theorem toggle_round_trip_changes_empty_log :
    sampleEmptyLog.currentPersona = .professor ∧
      sampleEmptyLog.chatHistory = [] ∧
      getItem sampleEmptyLog.localStorage "teseWebChatHistory_professor" = some (.json []) ∧
      ((togglePersona sampleClock sampleEmptyLog).bind (togglePersona sampleClock)).map
          (fun σ => (σ.currentPersona, σ.chatHistory,
            getItem σ.localStorage "teseWebChatHistory_professor")) =
        some (.professor, [greeting sampleClock .professor 1],
          some (.json [greeting sampleClock .professor 1])) := by
  decide

/-- What the round trip does keep. For every state in which persona A is
current and A's stored log is a list of messages, toggling to B succeeds and
leaves the log stored under A's key as it was; the toggle back to A selects
A again and its `loadHistory` reads exactly that list into `chatHistory`;
when that list is empty the toggle back then appends A's greeting. What
`renderHistory` then does to a non-empty list is a separate matter. -/
theorem toggle_round_trip (now : Clock) (σ : State) (log : List Message)
    (hsync : σ.toggleActive = decide (σ.currentPersona = .amigo))
    (hlog : getItem σ.localStorage (historyKey σ.currentPersona) = some (.json log)) :
    ∃ σ1, togglePersona now σ = some σ1 ∧
      σ1.currentPersona ≠ σ.currentPersona ∧
      getItem σ1.localStorage (historyKey σ.currentPersona) = some (.json log) ∧
      (toggleSelect σ1).currentPersona = σ.currentPersona ∧
      (loadHistory (toggleSelect σ1)).chatHistory = log ∧
      (log = [] →
        ∃ σ2, togglePersona now σ1 = some σ2 ∧
          σ2.currentPersona = σ.currentPersona ∧
          σ2.chatHistory = [greeting now σ.currentPersona σ1.clock] ∧
          getItem σ2.localStorage (historyKey σ.currentPersona) =
            some (.json [greeting now σ.currentPersona σ1.clock])) := by
  obtain ⟨σ1, h1⟩ := togglePersona_total now σ
  have hsel := toggleSelect_currentPersona σ hsync
  -- what the toggle to B keeps
  have hkeep : σ1.currentPersona = (toggleSelect σ).currentPersona ∧
      σ1.toggleActive = (toggleSelect σ).toggleActive ∧
      getItem σ1.localStorage (historyKey σ.currentPersona) = some (.json log) := by
    refine togglePersona_preserves now
      (fun τ => τ.currentPersona = (toggleSelect σ).currentPersona ∧
        τ.toggleActive = (toggleSelect σ).toggleActive ∧
        getItem τ.localStorage (historyKey σ.currentPersona) = some (.json log))
      ?_ σ σ1 ?_ h1
    · rintro τ t s m ⟨hc, ha, hg⟩
      refine ⟨hc, ha, ?_⟩
      rw [addMessage_getItem_ne _ _ _ _ _ _ ?_]
      · exact hg
      · rw [hc]
        intro hk
        exact hsel.1 (historyKey_injective hk).symm
    · refine ⟨loadHistory_currentPersona _, loadHistory_toggleActive _, ?_⟩
      show getItem (loadHistory (toggleSelect σ)).localStorage _ = _
      rw [loadHistory_getItem_ne, toggleSelect_getItem_history]
      · exact hlog
      · intro hk
        exact hsel.1 (historyKey_injective hk).symm
  have hsync1 : σ1.toggleActive = decide (σ1.currentPersona = .amigo) := by
    rw [hkeep.2.1, hkeep.1]; exact hsel.2
  have hne : σ1.currentPersona ≠ σ.currentPersona := by rw [hkeep.1]; exact hsel.1
  have hback : (toggleSelect σ1).currentPersona = σ.currentPersona := by
    have h2 := (toggleSelect_currentPersona σ1 hsync1).1
    revert h2 hne
    cases (toggleSelect σ1).currentPersona <;> cases σ1.currentPersona <;>
      cases σ.currentPersona <;> simp
  have hget : getItem (toggleSelect σ1).localStorage (historyKey (toggleSelect σ1).currentPersona) =
      some (.json log) := by
    rw [hback, toggleSelect_getItem_history]; exact hkeep.2.2
  have hload : loadHistory (toggleSelect σ1) = { toggleSelect σ1 with chatHistory := log } :=
    loadHistory_json _ hget
  refine ⟨σ1, h1, hne, hkeep.2.2, hback, by rw [hload], ?_⟩
  intro hnil
  subst hnil
  have hcur : ({ toggleSelect σ1 with chatHistory := [], chatWindow := [] } : State).currentPersona =
      σ.currentPersona := hback
  have hmd : messageData now { toggleSelect σ1 with chatHistory := [], chatWindow := [] }
      (personas σ.currentPersona).welcome "bot" {} = greeting now σ.currentPersona σ1.clock := by
    simp only [messageData, greeting, hback]
    rfl
  have hhist : (addMessage now { toggleSelect σ1 with chatHistory := [], chatWindow := [] }
      (personas σ.currentPersona).welcome "bot" {}).chatHistory =
        [greeting now σ.currentPersona σ1.clock] := by
    rw [addMessage_chatHistory, hmd]; rfl
  refine ⟨addMessage now { toggleSelect σ1 with chatHistory := [], chatWindow := [] }
    (personas σ.currentPersona).welcome "bot" {}, ?_, ?_, hhist, ?_⟩
  · unfold togglePersona
    simp [hload, hback]
  · rw [addMessage_currentPersona]; exact hcur
  · have h3 := addMessage_stored now { toggleSelect σ1 with chatHistory := [], chatWindow := [] }
      (personas σ.currentPersona).welcome "bot" {}
    rw [hhist, hcur] at h3
    exact h3

/-- C3 fails on the code: after a first page load the professor's log is the
one greeting; toggling to the other persona and back ends with 30 entries in
`chatHistory` and in the professor's stored log, each a new copy of the
greeting stamped with a later clock reading, because `renderHistory`
displays every entry through `addMessage`, which appends and stores it
again. -/
theorem toggle_round_trip_duplicates_log :
    sampleLoaded.currentPersona = .professor ∧
      sampleLoaded.chatHistory = [greeting sampleClock .professor 0] ∧
      getItem sampleLoaded.localStorage "teseWebChatHistory_professor" =
        some (.json [greeting sampleClock .professor 0]) ∧
      ((togglePersona sampleClock sampleLoaded).bind (togglePersona sampleClock)).map
          (fun σ => (σ.currentPersona, σ.chatHistory,
            getItem σ.localStorage "teseWebChatHistory_professor")) =
        some (.professor,
          (List.range 30).map (fun i => greeting sampleClock .professor (i + 3)),
          some (.json ((List.range 30).map (fun i => greeting sampleClock .professor (i + 3))))) := by
  decide

/-! ## C7: which submissions are accepted -/

theorem all_of_all_dropWhile (p : Char → Bool) (cs : List Char)
    (h : ∀ x ∈ cs.dropWhile p, p x = true) : ∀ x ∈ cs, p x = true := by
  induction cs with
  | nil => intro x hx; simp at hx
  | cons c cs ih =>
    by_cases hc : p c = true
    · rw [List.dropWhile_cons_of_pos hc] at h
      intro x hx
      rcases List.mem_cons.mp hx with rfl | hx
      · exact hc
      · exact ih h x hx
    · rw [List.dropWhile_cons_of_neg hc] at h
      exact absurd (h c (List.mem_cons_self _ _)) hc

theorem trimChars_eq_nil_iff (cs : List Char) :
    trimChars cs = [] ↔ cs.all isJsSpace = true := by
  unfold trimChars
  rw [List.reverse_eq_nil_iff, List.dropWhile_eq_nil_iff, List.all_eq_true]
  constructor
  · intro h
    apply all_of_all_dropWhile
    intro x hx
    exact h x (List.mem_reverse.mpr hx)
  · intro h x hx
    exact h x ((List.dropWhile_sublist _).subset (List.mem_reverse.mp hx))

theorem trim_eq_empty_iff (s : String) : trim s = "" ↔ s.data.all isJsSpace = true := by
  rw [← trimChars_eq_nil_iff]
  unfold trim
  constructor
  · intro h
    have := congrArg String.data h
    simpa using this
  · intro h
    rw [h]

/-- C7: `handleSubmit` changes nothing (log in memory and in the store,
in-flight flag, calls to the gateway, every other field) when a request is
in flight or the input is empty or white space only; when no request is in
flight and the input has a character that is not white space, exactly one
user message with the trimmed text is appended to the log in memory and in
the store, exactly one call to the gateway is added, carrying the trimmed
text, and the flag is raised. -/
theorem handleSubmit_guard (now : Clock) (σ : State) :
    ((σ.isProcessing = true ∨ σ.chatInput.data.all isJsSpace = true) →
        handleSubmit now σ = σ) ∧
      (σ.isProcessing = false → σ.chatInput.data.all isJsSpace = false →
        (handleSubmit now σ).chatHistory = lastN 30 (σ.chatHistory ++ [userMessage now σ]) ∧
        getItem (handleSubmit now σ).localStorage (historyKey σ.currentPersona) =
          some (.json (lastN 30 (σ.chatHistory ++ [userMessage now σ]))) ∧
        (handleSubmit now σ).requests = σ.requests ++ [requestOf σ (trim σ.chatInput)] ∧
        (handleSubmit now σ).isProcessing = true) := by
  constructor
  · rintro (h | h)
    · simp [handleSubmit, h]
    · have ht : trim σ.chatInput = "" := (trim_eq_empty_iff _).mpr h
      unfold handleSubmit
      simp [ht]
  · intro hp hs
    have ht : trim σ.chatInput ≠ "" := by
      intro h0
      rw [(trim_eq_empty_iff _).mp h0] at hs
      exact absurd hs (by simp)
    have e : handleSubmit now σ =
        processBotResponseStart (addMessage now σ (trim σ.chatInput) "user" {})
          (trim σ.chatInput) := by
      unfold handleSubmit
      simp [hp, ht]
    rw [e]
    refine ⟨?_, ?_, rfl, rfl⟩
    · exact addMessage_chatHistory now σ _ _ _
    · have := addMessage_stored now σ (trim σ.chatInput) "user" {}
      rw [addMessage_chatHistory] at this
      exact this

/-- C7 on a white-space input, which is dropped, and on the input ` Olá `,
which is accepted with the text `Olá`. -/
theorem handleSubmit_guard_witness :
    handleSubmit sampleClock sampleBlank = sampleBlank ∧
      (handleSubmit sampleClock sampleTyped).chatHistory =
        lastN 30 (sampleTyped.chatHistory ++ [userMessage sampleClock sampleTyped]) ∧
      getItem (handleSubmit sampleClock sampleTyped).localStorage
          (historyKey sampleTyped.currentPersona) =
        some (.json (lastN 30 (sampleTyped.chatHistory ++ [userMessage sampleClock sampleTyped]))) ∧
      (handleSubmit sampleClock sampleTyped).requests =
        sampleTyped.requests ++ [requestOf sampleTyped (trim sampleTyped.chatInput)] ∧
      (handleSubmit sampleClock sampleTyped).isProcessing = true :=
  ⟨(handleSubmit_guard sampleClock sampleBlank).1 (Or.inr (by decide)),
    (handleSubmit_guard sampleClock sampleTyped).2 (by decide) (by decide)⟩

/-! ## C8 and C9: what a settled request appends -/

theorem processBotResponseEnd_ok {now : Clock} {σ σ1 : State} {o : FetchOutcome}
    (h : tryBlock now σ o = .ok σ1) :
    processBotResponseEnd now σ o = finallyBlock σ1 := by
  unfold processBotResponseEnd; rw [h]

theorem processBotResponseEnd_error {now : Clock} {σ : State} {o : FetchOutcome} {e : JsError}
    (h : tryBlock now σ o = .error e) :
    processBotResponseEnd now σ o = finallyBlock (catchBlock now σ e) := by
  unfold processBotResponseEnd; rw [h]

theorem tryBlock_no_answer (now : Clock) (σ : State) (b : Body)
    (hb : b = .plain ∨ ∃ r, b = .object r ∧ r.noAnswer) :
    ∃ src, tryBlock now σ (.ok b) =
      .ok (addMessage now (hideTypingIndicator σ) noAnswerText "bot"
        { confidence := .num 0, source := src }) := by
  rcases hb with rfl | ⟨r, rfl, hr⟩
  · exact ⟨.undefined, rfl⟩
  · by_cases ht : r.answer.truthy = true
    · rcases hr with hf | ⟨s, hs, hc⟩
      · rw [hf] at ht; exact absurd ht (by simp)
      · refine ⟨r.source, ?_⟩
        rcases r with ⟨ans, conf, source, pers⟩
        simp only at hs hc ht
        subst hs
        rcases hc with hc | hc
        · simp [tryBlock, fetchLLMResponse, trySuccess, ht, hc]
        · simp [tryBlock, fetchLLMResponse, trySuccess, ht, hc]
    · refine ⟨.undefined, ?_⟩
      simp [tryBlock, fetchLLMResponse, ht, trySuccess]

/-- C8 as stated fails: a successful reply whose source is `no_answer` and
whose answer is the number 5, and a successful reply whose body is `null`
and so has no answer, both make the `try` block throw; the bot message
appended is the technical-failure message with source `erro`, not the
message with the fixed no-answer text. And a reply with source `no_answer`
whose answer is the fixed no-answer text gets a message whose text is that
answer. -/
theorem non_text_answer_gets_failure_message :
    sampleNumericAnswer.source = .str "no_answer" ∧
      (handleSubmitEnd sampleClock sampleSubmitted
          (.ok (.object sampleNumericAnswer))).chatHistory.getLast? =
        some (failureMessage sampleClock .professor 2) ∧
      (handleSubmitEnd sampleClock sampleSubmitted (.ok .null)).chatHistory.getLast? =
        some (failureMessage sampleClock .professor 2) ∧
      (failureMessage sampleClock .professor 2).text ≠
        "Nenhuma resposta encontrada para sua pergunta. Tente reformular ou perguntar de outra forma." ∧
      ((handleSubmitEnd sampleClock sampleSubmitted
          (.ok (.object sampleEchoAnswer))).chatHistory.getLast?.map
            (fun m => JVal.str m.text)) = some sampleEchoAnswer.answer := by
  decide

/-- C8, amended: whatever the state when the request settles, for every
successful reply whose body is not `null` and whose answer is missing or
falsy, or is white-space text, or is text while the source is `no_answer`,
the settled request appends to the log, in memory and in the store, one bot
message whose text is the fixed text `noAnswerText` and whose confidence is
0; the text is not empty, and it is not the reply's own answer unless that
answer is the fixed text itself. -/
theorem no_answer_reply_appends_fixed_text (now : Clock) (σ : State) (b : Body)
    (hb : b = .plain ∨ ∃ r, b = .object r ∧ r.noAnswer) :
    ∃ src,
      (handleSubmitEnd now σ (.ok b)).chatHistory =
        lastN 30 (σ.chatHistory ++ [noAnswerMessage now σ.currentPersona σ.clock src]) ∧
      getItem (handleSubmitEnd now σ (.ok b)).localStorage (historyKey σ.currentPersona) =
        some (.json (lastN 30
          (σ.chatHistory ++ [noAnswerMessage now σ.currentPersona σ.clock src]))) ∧
      (noAnswerMessage now σ.currentPersona σ.clock src).text =
        "Nenhuma resposta encontrada para sua pergunta. Tente reformular ou perguntar de outra forma." ∧
      (noAnswerMessage now σ.currentPersona σ.clock src).meta.confidence = .num 0 ∧
      (noAnswerMessage now σ.currentPersona σ.clock src).text ≠ "" ∧
      (∀ r, b = .object r → r.answer ≠ .str noAnswerText →
        JVal.str (noAnswerMessage now σ.currentPersona σ.clock src).text ≠ r.answer) := by
  obtain ⟨src, hsrc⟩ := tryBlock_no_answer now σ b hb
  refine ⟨src, ?_, ?_, rfl, rfl, ?_, fun r _ hr heq => hr heq.symm⟩
  rotate_left 2
  · show noAnswerText ≠ ""
    decide
  · show (processBotResponseEnd now σ (.ok b)).chatHistory = _
    rw [processBotResponseEnd_ok hsrc]
    exact addMessage_chatHistory now (hideTypingIndicator σ) _ _ _
  · show getItem (processBotResponseEnd now σ (.ok b)).localStorage _ = _
    rw [processBotResponseEnd_ok hsrc]
    have := addMessage_stored now (hideTypingIndicator σ) noAnswerText "bot"
      { confidence := .num 0, source := src }
    rw [addMessage_chatHistory] at this
    exact this

/-- The amended C8 at the reply with an empty answer and source `no_answer`,
settled after the question ` Olá ` was submitted. -/
theorem no_answer_reply_appends_fixed_text_witness :
    ∃ src,
      (handleSubmitEnd sampleClock sampleSubmitted
          (.ok (.object sampleNoAnswer))).chatHistory =
        lastN 30 (sampleSubmitted.chatHistory ++
          [noAnswerMessage sampleClock sampleSubmitted.currentPersona sampleSubmitted.clock src]) ∧
      getItem (handleSubmitEnd sampleClock sampleSubmitted
          (.ok (.object sampleNoAnswer))).localStorage
          (historyKey sampleSubmitted.currentPersona) =
        some (.json (lastN 30 (sampleSubmitted.chatHistory ++
          [noAnswerMessage sampleClock sampleSubmitted.currentPersona sampleSubmitted.clock src]))) ∧
      (noAnswerMessage sampleClock sampleSubmitted.currentPersona sampleSubmitted.clock src).text =
        "Nenhuma resposta encontrada para sua pergunta. Tente reformular ou perguntar de outra forma." ∧
      (noAnswerMessage sampleClock sampleSubmitted.currentPersona
        sampleSubmitted.clock src).meta.confidence = .num 0 ∧
      (noAnswerMessage sampleClock sampleSubmitted.currentPersona sampleSubmitted.clock src).text ≠
        "" ∧
      (∀ r, Body.object sampleNoAnswer = .object r → r.answer ≠ .str noAnswerText →
        JVal.str (noAnswerMessage sampleClock sampleSubmitted.currentPersona
          sampleSubmitted.clock src).text ≠ r.answer) :=
  no_answer_reply_appends_fixed_text sampleClock sampleSubmitted (.object sampleNoAnswer)
    (Or.inr ⟨sampleNoAnswer, rfl, Or.inl rfl⟩)

theorem lastN_append_two (l : List α) (a b : α) :
    lastN 30 (lastN 30 (l ++ [a]) ++ [b]) = lastN 28 l ++ [a, b] := by
  rw [lastN_append_lastN]
  unfold lastN
  have h1 : (l ++ [a] ++ [b]).length - 30 = l.length - 28 := by
    simp only [List.length_append, List.length_singleton]; omega
  rw [h1, List.append_assoc, List.drop_append_of_le_length (Nat.sub_le _ _)]
  rfl

/-- C9: for every accepted submission (no request in flight, trimmed input
`t` not empty) and every outcome on which the `try` block throws (a rejected
call, a non-success status, a body that is no JSON or is `null`, an answer
that is no text), with nothing happening in between, once the submission
completes the log in memory and in the store ends with the user message with
text `t` followed by the bot message with the fixed technical-failure text,
confidence 0 and source `erro`. -/
theorem failed_call_keeps_user_turn (now : Clock) (σ : State) (o : FetchOutcome) (e : JsError)
    (hidle : σ.isProcessing = false) (hinput : trim σ.chatInput ≠ "")
    (hfail : tryBlock now (handleSubmit now σ) o = .error e) :
    (handleSubmitEnd now (handleSubmit now σ) o).chatHistory =
        lastN 28 σ.chatHistory ++
          [userMessage now σ, failureMessage now σ.currentPersona (σ.clock + 1)] ∧
      getItem (handleSubmitEnd now (handleSubmit now σ) o).localStorage
          (historyKey σ.currentPersona) =
        some (.json (lastN 28 σ.chatHistory ++
          [userMessage now σ, failureMessage now σ.currentPersona (σ.clock + 1)])) ∧
      (userMessage now σ).text = trim σ.chatInput ∧
      (userMessage now σ).sender = "user" ∧
      (failureMessage now σ.currentPersona (σ.clock + 1)).text =
        "Desculpe, não consegui processar sua pergunta devido a um erro técnico." ∧
      (failureMessage now σ.currentPersona (σ.clock + 1)).sender = "bot" ∧
      (failureMessage now σ.currentPersona (σ.clock + 1)).meta.confidence = .num 0 ∧
      (failureMessage now σ.currentPersona (σ.clock + 1)).meta.source = .str "erro" := by
  have e1 : handleSubmit now σ =
      processBotResponseStart (addMessage now σ (trim σ.chatInput) "user" {})
        (trim σ.chatInput) := by
    unfold handleSubmit
    simp [hidle, hinput]
  have hh : (handleSubmitEnd now (handleSubmit now σ) o).chatHistory =
      lastN 28 σ.chatHistory ++
        [userMessage now σ, failureMessage now σ.currentPersona (σ.clock + 1)] := by
    show (processBotResponseEnd now (handleSubmit now σ) o).chatHistory = _
    rw [processBotResponseEnd_error hfail, e1]
    show (addMessage now _ technicalFailureText "bot" _).chatHistory = _
    rw [addMessage_chatHistory]
    show lastN 30 ((addMessage now σ (trim σ.chatInput) "user" {}).chatHistory ++ _) = _
    rw [addMessage_chatHistory, lastN_append_two]
    rfl
  refine ⟨hh, ?_, rfl, rfl, rfl, rfl, rfl, rfl⟩
  have hcur : (handleSubmit now σ).currentPersona = σ.currentPersona := by rw [e1]; rfl
  have hend : handleSubmitEnd now (handleSubmit now σ) o =
      { finallyBlock (catchBlock now (handleSubmit now σ) e) with chatInput := "" } := by
    unfold handleSubmitEnd; rw [processBotResponseEnd_error hfail]
  have hst := addMessage_stored now
    (showError (hideTypingIndicator (handleSubmit now σ)) (errorGuidance e ++ bannerSuffix))
    technicalFailureText "bot" { confidence := .num 0, source := .str "erro" }
  rw [← hh, hend, ← hcur]
  exact hst

/-- C9 at the question ` Olá ` and a call that fails with the message
`Failed to fetch`. -/
theorem failed_call_keeps_user_turn_witness :
    (handleSubmitEnd sampleClock (handleSubmit sampleClock sampleTyped)
        (.rejected ⟨"Failed to fetch"⟩)).chatHistory =
        lastN 28 sampleTyped.chatHistory ++
          [userMessage sampleClock sampleTyped,
            failureMessage sampleClock sampleTyped.currentPersona (sampleTyped.clock + 1)] ∧
      getItem (handleSubmitEnd sampleClock (handleSubmit sampleClock sampleTyped)
          (.rejected ⟨"Failed to fetch"⟩)).localStorage
          (historyKey sampleTyped.currentPersona) =
        some (.json (lastN 28 sampleTyped.chatHistory ++
          [userMessage sampleClock sampleTyped,
            failureMessage sampleClock sampleTyped.currentPersona (sampleTyped.clock + 1)])) ∧
      (userMessage sampleClock sampleTyped).text = trim sampleTyped.chatInput ∧
      (userMessage sampleClock sampleTyped).sender = "user" ∧
      (failureMessage sampleClock sampleTyped.currentPersona (sampleTyped.clock + 1)).text =
        "Desculpe, não consegui processar sua pergunta devido a um erro técnico." ∧
      (failureMessage sampleClock sampleTyped.currentPersona (sampleTyped.clock + 1)).sender =
        "bot" ∧
      (failureMessage sampleClock sampleTyped.currentPersona
        (sampleTyped.clock + 1)).meta.confidence = .num 0 ∧
      (failureMessage sampleClock sampleTyped.currentPersona
        (sampleTyped.clock + 1)).meta.source = .str "erro" :=
  failed_call_keeps_user_turn sampleClock sampleTyped (.rejected ⟨"Failed to fetch"⟩)
    ⟨"Failed to fetch"⟩ rfl (by decide) rfl

/-! ## C10: the error banner -/

theorem tryBlock_throws (now : Clock) (σ : State) :
    (∀ e, tryBlock now σ (.rejected e) = .error e) ∧
      (∀ status statusText body, tryBlock now σ (.notOk status statusText body) =
        .error ⟨apiErrorMessage status statusText body⟩) ∧
      (∀ e, tryBlock now σ (.badJson e) = .error e) ∧
      tryBlock now σ (.ok .null) = .error nullPropertyError ∧
      (∀ r, r.answer.truthy = true → (∀ s, r.answer ≠ .str s) →
        tryBlock now σ (.ok (.object r)) = .error notAFunctionError) := by
  refine ⟨fun _ => rfl, fun _ _ _ => rfl, fun _ => rfl, rfl, ?_⟩
  intro r ht hs
  rcases r with ⟨ans, conf, source, pers⟩
  cases ans with
  | str s => exact absurd rfl (hs s)
  | undefined => simp [JVal.truthy] at ht
  | null => simp [JVal.truthy] at ht
  | bool b => simp_all [tryBlock, fetchLLMResponse, trySuccess]
  | num n => simp_all [tryBlock, fetchLLMResponse, trySuccess]
  | object j => simp [tryBlock, fetchLLMResponse, trySuccess, JVal.truthy]

/-- The pattern occurs in the list: the test behind `includes`. -/
theorem includes_eq (s pat : String) :
    includes s pat = s.data.tails.any (fun t => pat.data.isPrefixOf t) := rfl

theorem occurs_append_of_head_not_mem (f : Char) (rest a b : List Char) (hf : f ∉ a)
    (h : (a ++ b).tails.any (fun t => (f :: rest).isPrefixOf t) = true) :
    b.tails.any (fun t => (f :: rest).isPrefixOf t) = true := by
  induction a with
  | nil => simpa using h
  | cons c a ih =>
    have hc : f ≠ c := fun hfc => hf (hfc ▸ List.mem_cons_self _ _)
    have ha : f ∉ a := fun hfa => hf (List.mem_cons_of_mem _ hfa)
    apply ih ha
    simp only [List.cons_append, List.tails, List.any_cons, List.isPrefixOf, Bool.or_eq_true,
      Bool.and_eq_true, beq_iff_eq] at h
    rcases h with ⟨h1, -⟩ | h
    · exact absurd h1 hc
    · exact h

theorem isPrefixOf_append_cases (pat t b : List Char) (h : pat.isPrefixOf (t ++ b) = true) :
    pat.isPrefixOf t = true ∨ ∃ u ∈ pat.tails, u ≠ [] ∧ u.isPrefixOf b = true := by
  induction t generalizing pat with
  | nil =>
    cases pat with
    | nil => left; rfl
    | cons p ps =>
      right
      exact ⟨p :: ps, by simp [List.tails], by simp, by simpa using h⟩
  | cons c t ih =>
    cases pat with
    | nil => left; rfl
    | cons p ps =>
      simp only [List.cons_append, List.isPrefixOf, Bool.and_eq_true, beq_iff_eq] at h
      rcases ih ps h.2 with h1 | ⟨u, hu, hne, hp⟩
      · left
        simp [List.isPrefixOf, h.1, h1]
      · right
        exact ⟨u, by simp [List.tails, hu], hne, hp⟩

theorem occurs_append_cases (pat a b : List Char)
    (h : (a ++ b).tails.any (fun t => pat.isPrefixOf t) = true) :
    a.tails.any (fun t => pat.isPrefixOf t) = true ∨
      b.tails.any (fun t => pat.isPrefixOf t) = true ∨
      ∃ u ∈ pat.tails, u ≠ [] ∧ u.isPrefixOf b = true := by
  induction a with
  | nil => right; left; simpa using h
  | cons c a ih =>
    simp only [List.cons_append, List.tails, List.any_cons, Bool.or_eq_true] at h
    rcases h with h | h
    · rcases isPrefixOf_append_cases pat (c :: a) b h with h1 | h1
      · left
        simp [List.tails, h1]
      · right; right; exact h1
    · rcases ih h with h1 | h1
      · left
        simp only [List.tails, List.any_cons, Bool.or_eq_true]
        right; exact h1
      · right; exact h1

theorem digitChar_ne_F : ∀ m, m < 10 → Nat.digitChar m ≠ 'F' := by
  decide

theorem toDigitsCore_no_F (fuel : Nat) :
    ∀ (n : Nat) (ds : List Char), 'F' ∉ ds → 'F' ∉ Nat.toDigitsCore 10 fuel n ds := by
  induction fuel with
  | zero => intro n ds h; simpa [Nat.toDigitsCore] using h
  | succ fuel ih =>
    intro n ds h
    have hd : 'F' ∉ Nat.digitChar (n % 10) :: ds := by
      intro hm
      rcases List.mem_cons.mp hm with h1 | h1
      · exact digitChar_ne_F (n % 10) (Nat.mod_lt _ (by decide)) h1.symm
      · exact h h1
    unfold Nat.toDigitsCore
    simp only
    split
    · exact hd
    · exact ih _ _ hd

theorem toString_no_F (n : Nat) : 'F' ∉ (toString n).data := by
  show 'F' ∉ (Nat.repr n).data
  unfold Nat.repr Nat.toDigits
  simp only [List.asString]
  exact toDigitsCore_no_F _ _ _ (by simp)

theorem no_straddle (rest : List Char) :
    ∀ u ∈ "Failed to fetch".data.tails, u ≠ [] →
      u.isPrefixOf (' ' :: '-' :: rest) = false := by
  intro u hu hne
  simp only [List.tails, List.mem_cons, List.mem_singleton] at hu
  rcases hu with rfl | rfl | rfl | rfl | rfl | rfl | rfl | rfl | rfl | rfl | rfl | rfl | rfl |
    rfl | rfl | hu
  all_goals first
    | simp [List.isPrefixOf]
    | exact absurd hu (by simpa using hne)

theorem apiErrorMessage_no_connectivity_text (status : Nat) (statusText body : String)
    (h1 : includes statusText "Failed to fetch" = false)
    (h2 : includes body "Failed to fetch" = false) :
    includes (apiErrorMessage status statusText body) "Failed to fetch" = false := by
  by_contra hc
  have hc : includes (apiErrorMessage status statusText body) "Failed to fetch" = true := by
    simpa using hc
  rw [includes_eq] at hc h1 h2
  have hdata : (apiErrorMessage status statusText body).data =
      ("API error: ".data ++ (toString status).data ++ " ".data) ++
        (statusText.data ++ (" - ".data ++ body.data)) := by
    simp [apiErrorMessage, String.data_append]
  rw [hdata] at hc
  have hpre : 'F' ∉ "API error: ".data ++ (toString status).data ++ " ".data := by
    simp only [List.mem_append, not_or]
    exact ⟨⟨by decide, toString_no_F status⟩, by decide⟩
  have hc2 := occurs_append_of_head_not_mem 'F' "ailed to fetch".data _ _ hpre hc
  rcases occurs_append_cases _ _ _ hc2 with h | h | ⟨u, hu, hne, hp⟩
  · rw [h] at h1; exact absurd h1 (by simp)
  · have h3 := occurs_append_of_head_not_mem 'F' "ailed to fetch".data " - ".data body.data
      (by decide) h
    rw [h3] at h2; exact absurd h2 (by simp)
  · have := no_straddle (' ' :: body.data) u hu hne
    rw [show " - ".data ++ body.data = ' ' :: '-' :: ' ' :: body.data from rfl] at hp
    rw [hp] at this
    exact absurd this (by simp)

theorem errorGuidance_eq (e : JsError) :
    errorGuidance e =
      if includes e.message "Failed to fetch" = true then connectivityGuidance
      else if includes e.message "API error" = true then serverGuidance
      else genericGuidance := by
  unfold errorGuidance
  by_cases hm : e.message = ""
  · have h1 : includes "" "Failed to fetch" = false := by decide
    have h2 : includes "" "API error" = false := by decide
    simp [hm, h1, h2]
  · simp [hm]

theorem apiErrorMessage_includes (status : Nat) (statusText body : String) :
    includes (apiErrorMessage status statusText body) "API error" = true := by
  rw [includes_eq]
  have hdata : (apiErrorMessage status statusText body).data =
      "API error".data ++ (": ".data ++ (toString status).data ++ " ".data ++
        statusText.data ++ " - ".data ++ body.data) := by
    simp [apiErrorMessage, String.data_append]
  rw [hdata]
  generalize (": ".data ++ (toString status).data ++ " ".data ++
        statusText.data ++ " - ".data ++ body.data) = tl
  simp [List.tails, List.isPrefixOf]

/-- C10 fails on the code: a reply with status 500 whose body is the text
`Failed to fetch` gets the connectivity guidance, not the server-issue
guidance, because the catch block looks for `Failed to fetch` first, in a
message that embeds the body of the reply. -/
theorem non_success_reply_shows_connectivity_banner :
    (handleSubmitEnd sampleClock sampleSubmitted
        (.notOk 500 "Internal Server Error" "Failed to fetch")).errorContainer =
      some ("Erro de conexão com o servidor. Verifique sua internet ou tente novamente mais tarde." ++
        " Se o problema persistir, entre em contato com o doutorando Nélio Gomes.") ∧
      (handleSubmitEnd sampleClock sampleSubmitted
        (.notOk 500 "Internal Server Error" "Failed to fetch")).errorContainer ≠
      some ("Erro interno do servidor. Tente novamente em alguns minutos." ++
        " Se o problema persistir, entre em contato com o doutorando Nélio Gomes.") := by
  decide

/-- What the catch block does with a thrown error: the banner is chosen
from the text of its message. A message that contains `Failed to fetch`
gets the connectivity guidance; a reply with a non-success HTTP status whose
status text and body do not contain `Failed to fetch` gets the server-issue
guidance, whatever its status code; a message that contains neither
`Failed to fetch` nor `API error` gets the generic guidance. -/
theorem banner_follows_error_message (now : Clock) (σ : State) (o : FetchOutcome) (e : JsError)
    (hfail : tryBlock now σ o = .error e) :
    (handleSubmitEnd now σ o).errorContainer = some (errorGuidance e ++ bannerSuffix) ∧
      (includes e.message "Failed to fetch" = true →
        errorGuidance e =
          "Erro de conexão com o servidor. Verifique sua internet ou tente novamente mais tarde.") ∧
      (∀ status statusText body, o = .notOk status statusText body →
        includes statusText "Failed to fetch" = false →
        includes body "Failed to fetch" = false →
        errorGuidance e = "Erro interno do servidor. Tente novamente em alguns minutos.") ∧
      (includes e.message "Failed to fetch" = false →
        includes e.message "API error" = false →
        errorGuidance e =
          "Erro inesperado. Tente recarregar a página ou reformular sua pergunta.") := by
  refine ⟨?_, ?_, ?_, ?_⟩
  · show (processBotResponseEnd now σ o).errorContainer = _
    rw [processBotResponseEnd_error hfail]
    rfl
  · intro h
    rw [errorGuidance_eq, if_pos h]; rfl
  · intro status statusText body ho h1 h2
    subst ho
    have he : e = ⟨apiErrorMessage status statusText body⟩ := by
      have := (tryBlock_throws now σ).2.1 status statusText body
      rw [hfail] at this
      exact Except.error.inj this
    subst he
    have h3 := apiErrorMessage_no_connectivity_text status statusText body h1 h2
    have h4 := apiErrorMessage_includes status statusText body
    rw [errorGuidance_eq]
    simp only [h3, h4, if_true]
    rfl
  · intro h1 h2
    rw [errorGuidance_eq]
    simp only [h1, h2]
    rfl

/-- A reply with status 503 whose body is an HTML page gets the server-issue
guidance. -/
theorem banner_follows_error_message_witness :
    (handleSubmitEnd sampleClock sampleSubmitted
        (.notOk 503 "Service Unavailable" "<html>busy</html>")).errorContainer =
      some ("Erro interno do servidor. Tente novamente em alguns minutos." ++
        " Se o problema persistir, entre em contato com o doutorando Nélio Gomes.") :=
  have h := banner_follows_error_message sampleClock sampleSubmitted
    (.notOk 503 "Service Unavailable" "<html>busy</html>")
    ⟨apiErrorMessage 503 "Service Unavailable" "<html>busy</html>"⟩ rfl
  h.1.trans (by rw [h.2.2.1 503 "Service Unavailable" "<html>busy</html>" rfl (by decide)
    (by decide)]; rfl)

/-! ## C13: `renderHistory` terminates -/

theorem renderLoopCount_fst (now : Clock) :
    ∀ (fuel : Nat) (arr : List Message) (i : Nat) (al : Bool) (σ : State),
      (renderLoopCount now fuel arr i al σ).map Prod.fst = renderLoop now fuel arr i al σ := by
  intro fuel
  induction fuel with
  | zero => intro arr i al σ; rfl
  | succ fuel ih =>
    intro arr i al σ
    unfold renderLoopCount renderLoop
    cases hget : arr.get? i with
    | none => rfl
    | some msg =>
      simp only
      split
      · rw [← ih, Option.map_map]; rfl
      · rw [← ih, Option.map_map]; rfl

theorem renderLoopCount_bound (now : Clock) :
    ∀ (fuel : Nat) (arr : List Message) (i : Nat) (al : Bool) (σ : State),
      (al = true → σ.chatHistory = arr) → remaining arr i al < fuel →
      ∃ σ1 k, renderLoopCount now fuel arr i al σ = some (σ1, k) ∧ k ≤ remaining arr i al := by
  intro fuel
  induction fuel with
  | zero => intro arr i al σ _ h; omega
  | succ fuel ih =>
    intro arr i al σ hal hrem
    unfold renderLoopCount
    cases hget : arr.get? i with
    | none => exact ⟨σ, 0, rfl, Nat.zero_le _⟩
    | some msg =>
      have hi : i < arr.length := by
        by_contra hc
        rw [List.get?_eq_none.mpr (by omega)] at hget
        exact absurd hget (by simp)
      simp only
      split
      · have hlt : remaining arr (i + 1) al < remaining arr i al := by
          unfold remaining
          cases al <;> simp <;> omega
        obtain ⟨σ1, k, hk, hle⟩ := ih arr (i + 1) al σ hal (by omega)
        exact ⟨σ1, k + 1, by rw [hk]; rfl, by omega⟩
      · cases al with
        | false =>
          have hlt : remaining arr (i + 1) false < remaining arr i false := by
            simp [remaining]; omega
          obtain ⟨σ1, k, hk, hle⟩ := ih arr (i + 1) false
            (saveHistory (pushMessage now σ msg.text msg.sender msg.meta))
            (fun h => absurd h (by simp)) (by omega)
          refine ⟨σ1, k + 1, ?_, by omega⟩
          simp only [Bool.false_and, Bool.false_eq_true, if_false]
          rw [hk]; rfl
        | true =>
          have hc : σ.chatHistory = arr := hal rfl
          have hlen : (pushMessage now σ msg.text msg.sender msg.meta).chatHistory.length =
              arr.length + 1 := by simp [pushMessage, hc]
          have hlt : remaining (pushMessage now σ msg.text msg.sender msg.meta).chatHistory (i + 1)
              (true && !decide ((pushMessage now σ msg.text msg.sender msg.meta).chatHistory.length
                > 30)) < remaining arr i true := by
            by_cases h30 : arr.length + 1 > 30
            · simp [remaining, hlen, h30]; omega
            · simp [remaining, hlen, h30]; omega
          obtain ⟨σ1, k, hk, hle⟩ := ih
            (pushMessage now σ msg.text msg.sender msg.meta).chatHistory (i + 1)
            (true && !decide ((pushMessage now σ msg.text msg.sender msg.meta).chatHistory.length
              > 30))
            (saveHistory (pushMessage now σ msg.text msg.sender msg.meta))
            (by
              intro h2
              simp only [Bool.true_and, Bool.not_eq_true', decide_eq_false_iff_not, not_lt] at h2
              rw [saveHistory_chatHistory, lastN_of_length_le _ _ h2])
            (by omega)
          refine ⟨σ1, k + 1, ?_, by omega⟩
          simp only [if_true]
          rw [hk]; rfl

/-- C13: for every in-memory log, of any length `n` and any mix of persona
tags, `renderHistory` returns, and its loop body runs at most
`max n 30 + 1` times, although every message it renders is pushed onto the
array being walked until `saveHistory` rebinds `chatHistory`. -/
theorem renderHistory_terminates (now : Clock) (σ : State) :
    ∃ σ1 k, renderHistoryCount now σ = some (σ1, k) ∧
      renderHistory now σ = some σ1 ∧
      k ≤ max σ.chatHistory.length 30 + 1 := by
  obtain ⟨σ1, k, hk, hle⟩ := renderLoopCount_bound now (σ.chatHistory.length + 32)
    σ.chatHistory 0 true { σ with chatWindow := [] } (fun _ => rfl)
    (by simp [remaining])
  have hk1 : renderHistoryCount now σ = some (σ1, k) := hk
  refine ⟨σ1, k, hk1, ?_, by simpa [remaining] using hle⟩
  unfold renderHistory
  rw [← renderLoopCount_fst]
  show Option.map Prod.fst (renderHistoryCount now σ) = some σ1
  rw [hk1]; rfl

/-- The bound of C13 is reached: on the log holding the one greeting the
loop body runs 31 times. -/
theorem renderHistory_count_example :
    (renderHistoryCount sampleClock sampleLoaded).map Prod.snd = some 31 := by
  decide

/-! ## C12: what `renderHistory` displays -/

set_option maxRecDepth 100000 in
/-- C12 fails on the code: a page load that finds the one stored greeting
displays it 31 times, not once, and leaves 30 copies of it in the log,
because `renderHistory` displays every entry through `addMessage`, which
pushes the entry onto the array the loop is walking. -/
theorem renderHistory_displays_entry_again :
    getItem sampleLoaded.localStorage "teseWebChatHistory_professor" =
        some (.json [greeting sampleClock .professor 0]) ∧
      (construct sampleClock sampleLoaded.localStorage 1 []).map
          (fun σ => (σ.currentPersona, σ.chatWindow, σ.chatHistory.length)) =
        some (.professor,
          List.replicate 31
            (.bubble (personas .professor).welcome "bot" (some .professor) {}),
          30) := by
  decide

/-! ## C11: the plain-text export -/

theorem afterTag_cons (c : Char) (cs : List Char) :
    afterTag (c :: cs) =
      if c = '>' then none
      else
        match cs.dropWhile (fun d => d != '>') with
        | [] => none
        | _ :: rest => some rest := rfl

theorem afterTag_some {cs rest : List Char} (h : afterTag cs = some rest) :
    rest.length < cs.length ∧ ∀ x ∈ rest, x ∈ cs := by
  cases cs with
  | nil => simp [afterTag] at h
  | cons c cs =>
    rw [afterTag_cons] at h
    split at h
    · exact absurd h (by simp)
    · cases hd : cs.dropWhile (fun d => d != '>') with
      | nil => rw [hd] at h; simp at h
      | cons d ds =>
        rw [hd] at h
        simp only [Option.some.injEq] at h
        subst h
        have hsub : (d :: ds).Sublist cs := hd ▸ List.dropWhile_sublist _
        have hlen := hsub.length_le
        simp only [List.length_cons] at hlen ⊢
        refine ⟨by omega, fun x hx => ?_⟩
        exact List.mem_cons_of_mem _ (hsub.subset (List.mem_cons_of_mem _ hx))

theorem afterTag_none {cs : List Char} (h : afterTag cs = none) :
    cs.head? = some '>' ∨ '>' ∉ cs := by
  cases cs with
  | nil => right; simp
  | cons c cs =>
    rw [afterTag_cons] at h
    split at h
    · left; simp [*]
    · rename_i hc
      right
      cases hd : cs.dropWhile (fun d => d != '>') with
      | cons d ds => rw [hd] at h; simp at h
      | nil =>
        have hall := List.dropWhile_eq_nil_iff.mp hd
        intro hm
        rcases List.mem_cons.mp hm with h1 | h1
        · exact hc h1.symm
        · have := hall _ h1
          simp at this

theorem mem_stripTagsAux (fuel : Nat) :
    ∀ (cs : List Char) (x : Char), x ∈ stripTagsAux fuel cs → x ∈ cs := by
  induction fuel with
  | zero => intro cs x h; simpa [stripTagsAux] using h
  | succ fuel ih =>
    intro cs x h
    cases cs with
    | nil => simp [stripTagsAux] at h
    | cons c cs =>
      unfold stripTagsAux at h
      split at h
      · split at h
        · rename_i rest hr
          exact List.mem_cons_of_mem _ ((afterTag_some hr).2 x (ih _ _ h))
        · rcases List.mem_cons.mp h with h1 | h1
          · rw [h1]; exact List.mem_cons_self _ _
          · exact List.mem_cons_of_mem _ (ih _ _ h1)
      · rcases List.mem_cons.mp h with h1 | h1
        · rw [h1]; exact List.mem_cons_self _ _
        · exact List.mem_cons_of_mem _ (ih _ _ h1)

theorem head_stripTagsAux_gt (fuel : Nat) (cs : List Char) :
    (stripTagsAux (fuel + 1) ('>' :: cs)).head? = some '>' := by
  simp [stripTagsAux]

theorem NoOpenTag_stripTagsAux (fuel : Nat) :
    ∀ cs : List Char, cs.length < fuel → NoOpenTag (stripTagsAux fuel cs) := by
  induction fuel with
  | zero => intro cs h; omega
  | succ fuel ih =>
    intro cs hlen
    cases cs with
    | nil => simp [stripTagsAux, NoOpenTag]
    | cons c cs =>
      simp only [List.length_cons] at hlen
      unfold stripTagsAux
      split
      · split
        · rename_i rest hr
          exact ih rest (by have := (afterTag_some hr).1; omega)
        · rename_i hn
          refine ⟨fun _ => ?_, ih cs (by omega)⟩
          rcases afterTag_none hn with h1 | h1
          · left
            cases cs with
            | nil => simp at h1
            | cons d ds =>
              simp only [List.head?_cons, Option.some.injEq] at h1
              subst h1
              cases fuel with
              | zero => simp at hlen
              | succ f => exact head_stripTagsAux_gt f ds
          · right
            exact fun hm => h1 (mem_stripTagsAux fuel cs _ hm)
      · rename_i hc
        exact ⟨fun h => absurd h hc, ih cs (by omega)⟩

theorem mem_collapseSpaces (cs : List Char) :
    ∀ (b : Bool) (x : Char), x ∈ collapseSpaces b cs → (x ∈ cs ∧ isJsSpace x = false) ∨ x = ' ' := by
  induction cs with
  | nil => intro b x h; simp [collapseSpaces] at h
  | cons c cs ih =>
    intro b x h
    unfold collapseSpaces at h
    split at h
    · have h2 : x = ' ' ∨ x ∈ collapseSpaces true cs := by
        split at h
        · right; exact h
        · exact List.mem_cons.mp h
      rcases h2 with h2 | h2
      · right; exact h2
      · rcases ih _ _ h2 with h3 | h3
        · left; exact ⟨List.mem_cons_of_mem _ h3.1, h3.2⟩
        · right; exact h3
    · rename_i hc
      rcases List.mem_cons.mp h with h1 | h1
      · left; rw [h1]; exact ⟨List.mem_cons_self _ _, by simpa using hc⟩
      · rcases ih _ _ h1 with h3 | h3
        · left; exact ⟨List.mem_cons_of_mem _ h3.1, h3.2⟩
        · right; exact h3

theorem NoOpenTag_collapseSpaces (cs : List Char) :
    ∀ b : Bool, NoOpenTag cs → NoOpenTag (collapseSpaces b cs) := by
  induction cs with
  | nil => intro b h; simp [collapseSpaces, NoOpenTag]
  | cons c cs ih =>
    intro b h
    unfold collapseSpaces
    split
    · split
      · exact ih _ h.2
      · exact ⟨fun hc => absurd hc (by decide), ih _ h.2⟩
    · refine ⟨fun hc => ?_, ih _ h.2⟩
      rcases h.1 hc with h1 | h1
      · left
        cases cs with
        | nil => simp at h1
        | cons d ds =>
          simp only [List.head?_cons, Option.some.injEq] at h1
          subst h1
          simp [collapseSpaces, isJsSpace]
      · right
        intro hm
        rcases mem_collapseSpaces cs _ _ hm with h3 | h3
        · exact h1 h3.1
        · exact absurd h3 (by decide)

theorem NoOpenTag_of_append_right (a b : List Char) (h : NoOpenTag (a ++ b)) : NoOpenTag b := by
  induction a with
  | nil => exact h
  | cons c a ih => exact ih h.2

theorem NoOpenTag_of_append_left (a b : List Char) (h : NoOpenTag (a ++ b)) : NoOpenTag a := by
  induction a with
  | nil => trivial
  | cons c a ih =>
    refine ⟨fun hc => ?_, ih h.2⟩
    rcases h.1 hc with h1 | h1
    · cases a with
      | nil => right; simp
      | cons d ds => left; simpa using h1
    · right
      exact fun hm => h1 (List.mem_append_left _ hm)

theorem trimChars_decompose (cs : List Char) :
    ∃ a b, cs = a ++ (trimChars cs ++ b) := by
  refine ⟨cs.takeWhile isJsSpace,
    ((cs.dropWhile isJsSpace).reverse.takeWhile isJsSpace).reverse, ?_⟩
  unfold trimChars
  rw [← List.reverse_append, List.takeWhile_append_dropWhile, List.reverse_reverse,
    List.takeWhile_append_dropWhile]

theorem NoOpenTag_trimChars (cs : List Char) (h : NoOpenTag cs) : NoOpenTag (trimChars cs) := by
  obtain ⟨a, b, hab⟩ := trimChars_decompose cs
  rw [hab] at h
  exact NoOpenTag_of_append_left _ _ (NoOpenTag_of_append_right _ _ h)

theorem NoOpenTag_plainBody (text : String) : NoOpenTag (plainBody text).data :=
  NoOpenTag_trimChars _ (NoOpenTag_collapseSpaces _ _
    (NoOpenTag_stripTagsAux _ _ (Nat.lt_succ_self _)))

theorem no_tag_of_NoOpenTag (l : List Char) (h : NoOpenTag l) :
    ¬ ∃ pre y post, l = pre ++ '<' :: (y ++ '>' :: post) ∧ y ≠ [] ∧ '>' ∉ y := by
  rintro ⟨pre, y, post, hl, hy, hgt⟩
  rw [hl] at h
  have h2 := (NoOpenTag_of_append_right pre _ h).1 rfl
  rcases h2 with h2 | h2
  · cases y with
    | nil => exact hy rfl
    | cons d ds =>
      simp only [List.cons_append, List.head?_cons, Option.some.injEq] at h2
      exact hgt (h2 ▸ List.mem_cons_self _ _)
  · exact h2 (List.mem_append_right _ (List.mem_cons_self _ _))

theorem head_dropWhile_false (p : Char → Bool) (cs : List Char) (c : Char)
    (h : (cs.dropWhile p).head? = some c) : p c = false := by
  induction cs with
  | nil => simp at h
  | cons d ds ih =>
    by_cases hd : p d = true
    · rw [List.dropWhile_cons_of_pos hd] at h; exact ih h
    · rw [List.dropWhile_cons_of_neg hd] at h
      simp only [List.head?_cons, Option.some.injEq] at h
      subst h
      simpa using hd

theorem trimChars_getLast (cs : List Char) (c : Char) (h : (trimChars cs).getLast? = some c) :
    isJsSpace c = false := by
  unfold trimChars at h
  rw [List.getLast?_reverse] at h
  exact head_dropWhile_false _ _ _ h

theorem trimChars_head (cs : List Char) (c : Char) (h : (trimChars cs).head? = some c) :
    isJsSpace c = false := by
  have hdec : ∃ b, cs.dropWhile isJsSpace = trimChars cs ++ b := by
    refine ⟨((cs.dropWhile isJsSpace).reverse.takeWhile isJsSpace).reverse, ?_⟩
    unfold trimChars
    rw [← List.reverse_append, List.takeWhile_append_dropWhile, List.reverse_reverse]
  obtain ⟨b, hb⟩ := hdec
  apply head_dropWhile_false isJsSpace cs c
  rw [hb]
  cases ht : trimChars cs with
  | nil => rw [ht] at h; simp at h
  | cons d ds => rw [ht] at h; simpa using h

theorem plainBody_space_only (text : String) (c : Char) (hm : c ∈ (plainBody text).data)
    (hc : isJsSpace c = true) : c = ' ' := by
  obtain ⟨a, b, hab⟩ := trimChars_decompose (collapseSpaces false (stripTags text.data))
  have hm2 : c ∈ collapseSpaces false (stripTags text.data) := by
    rw [hab]
    exact List.mem_append_right _ (List.mem_append_left _ hm)
  rcases mem_collapseSpaces _ _ _ hm2 with h | h
  · rw [h.2] at hc; exact absurd hc (by simp)
  · exact h

theorem plainBody_no_newline (text : String) : '\n' ∉ (plainBody text).data := by
  intro hm
  exact absurd (plainBody_space_only text '\n' hm (by decide)) (by decide)

/-- The export of a log with markup, line breaks and both personas. -/
theorem getChatHistoryText_example :
    getChatHistoryText sampleExport =
      "Você: Olá, doutor\n\nDr. Gasnelio: Oitudo bem? a <> b\n\nGá: x> <" := by
  decide

theorem saveHistory_chatWindow (σ : State) : (saveHistory σ).chatWindow = σ.chatWindow := rfl

theorem saveHistory_currentPersona (σ : State) :
    (saveHistory σ).currentPersona = σ.currentPersona := rfl

theorem renderLoop_displays_unskipped (now : Clock) (orig : List Message) (p : Persona) :
    ∀ (fuel : Nat) (arr : List Message) (i : Nat) (al : Bool) (σ σ1 : State),
      σ.currentPersona = p →
      (al = true → σ.chatHistory = arr) →
      (∀ m ∈ arr, skipped p m = false →
        ∃ o ∈ orig, skipped p o = false ∧ m.text = o.text ∧ m.sender = o.sender ∧
          m.meta = o.meta) →
      (∀ n ∈ σ.chatWindow, ∃ o ∈ orig, skipped p o = false ∧
        n = .bubble (processText o.text) o.sender
          (if o.sender = "user" then none else some p) o.meta) →
      renderLoop now fuel arr i al σ = some σ1 →
      ∀ n ∈ σ1.chatWindow, ∃ o ∈ orig, skipped p o = false ∧
        n = .bubble (processText o.text) o.sender
          (if o.sender = "user" then none else some p) o.meta := by
  intro fuel
  induction fuel with
  | zero => intro arr i al σ σ1 _ _ _ _ h; simp [renderLoop] at h
  | succ fuel ih =>
    intro arr i al σ σ1 hp hal harr hwin h
    unfold renderLoop at h
    cases hget : arr.get? i with
    | none =>
      rw [hget] at h
      simp only [Option.some.injEq] at h
      exact h ▸ hwin
    | some msg =>
      rw [hget] at h
      simp only at h
      have hmem : msg ∈ arr := List.get?_mem hget
      split at h
      · exact ih _ _ _ _ _ hp hal harr hwin h
      · rename_i hsk
        have hsk2 : skipped p msg = false := by
          rw [hp] at hsk; simpa using hsk
        obtain ⟨o, ho, hos, ht, hs, hm⟩ := harr msg hmem hsk2
        refine ih _ _ _ (saveHistory (pushMessage now σ msg.text msg.sender msg.meta)) σ1 hp
          ?_ ?_ ?_ h
        · cases al with
          | false => intro h2; exact absurd h2 (by simp)
          | true =>
            intro h2
            simp only [Bool.true_and, Bool.not_eq_true', decide_eq_false_iff_not, not_lt,
              if_true] at h2 ⊢
            rw [saveHistory_chatHistory, lastN_of_length_le _ _ h2]
        · cases al with
          | false => simpa using harr
          | true =>
            simp only [if_true]
            intro m hm2 hms
            have hc : σ.chatHistory = arr := hal rfl
            have hm3 : m ∈ arr ++ [messageData now σ msg.text msg.sender msg.meta] := by
              simpa [pushMessage, hc] using hm2
            rcases List.mem_append.mp hm3 with h3 | h3
            · exact harr m h3 hms
            · rw [List.mem_singleton.mp h3]
              exact ⟨o, ho, hos, ht, hs, hm⟩
        · intro n hn
          rw [saveHistory_chatWindow] at hn
          have hn2 : n ∈ σ.chatWindow ++ [messageNode σ msg.text msg.sender msg.meta] := hn
          rcases List.mem_append.mp hn2 with h3 | h3
          · exact hwin n h3
          · refine ⟨o, ho, hos, ?_⟩
            rw [List.mem_singleton.mp h3]
            simp only [messageNode, hp, ht, hs, hm]

/-- What `renderHistory` gets right: every message it displays is a stored
message that passes the persona test, shown as `addMessage` shows it; a
message tagged with a different persona is never displayed. How often each
one is displayed is another matter. -/
theorem renderHistory_displays_unskipped (now : Clock) (σ σ1 : State)
    (h : renderHistory now σ = some σ1) :
    ∀ n ∈ σ1.chatWindow, ∃ o ∈ σ.chatHistory, skipped σ.currentPersona o = false ∧
      n = .bubble (processText o.text) o.sender
        (if o.sender = "user" then none else some σ.currentPersona) o.meta :=
  renderLoop_displays_unskipped now σ.chatHistory σ.currentPersona
    (σ.chatHistory.length + 32) σ.chatHistory 0 true { σ with chatWindow := [] } σ1 rfl
    (fun _ => rfl) (fun m hm hs => ⟨m, hm, hs, rfl, rfl, rfl⟩)
    (fun n hn => absurd hn (List.not_mem_nil n)) h

/-! ## C11, continued: the body is the text, stripped and squeezed -/

theorem afterTag_some_split {cs rest : List Char} (h : afterTag cs = some rest) :
    ∃ y, cs = y ++ '>' :: rest ∧ y ≠ [] ∧ '>' ∉ y := by
  cases cs with
  | nil => simp [afterTag] at h
  | cons c cs =>
    rw [afterTag_cons] at h
    split at h
    · exact absurd h (by simp)
    · rename_i hc
      cases hd : cs.dropWhile (fun d => d != '>') with
      | nil => rw [hd] at h; simp at h
      | cons d ds =>
        rw [hd] at h
        simp only [Option.some.injEq] at h
        subst h
        have hd1 : d = '>' := by
          have := head_dropWhile_false (fun d => d != '>') cs d (by rw [hd]; rfl)
          simpa using this
        subst hd1
        refine ⟨c :: cs.takeWhile (fun d => d != '>'), ?_, by simp, ?_⟩
        · rw [List.cons_append, ← hd, List.takeWhile_append_dropWhile]
        · intro hm
          rcases List.mem_cons.mp hm with h1 | h1
          · exact hc h1.symm
          · have := List.mem_takeWhile_imp h1
            simp at this

theorem not_StartsTag_of_afterTag_none {cs : List Char} (h : afterTag cs = none) :
    ¬ StartsTag ('<' :: cs) := by
  rintro ⟨y, post, hl, hy, hgt⟩
  have hcs : cs = y ++ '>' :: post := List.tail_eq_of_cons_eq hl
  rcases afterTag_none h with h1 | h1
  · cases y with
    | nil => exact hy rfl
    | cons d ds =>
      rw [hcs] at h1
      simp only [List.cons_append, List.head?_cons, Option.some.injEq] at h1
      exact hgt (h1 ▸ List.mem_cons_self _ _)
  · exact h1 (hcs ▸ List.mem_append_right _ (List.mem_cons_self _ _))

theorem not_StartsTag_of_head_ne {c : Char} (l : List Char) (hc : c ≠ '<') :
    ¬ StartsTag (c :: l) := by
  rintro ⟨y, post, hl, -, -⟩
  exact hc (List.head_eq_of_cons_eq hl)

theorem MarkupStripped_stripTagsAux (fuel : Nat) :
    ∀ cs : List Char, cs.length < fuel → MarkupStripped cs (stripTagsAux fuel cs) := by
  induction fuel with
  | zero => intro cs h; omega
  | succ fuel ih =>
    intro cs hlen
    cases cs with
    | nil => exact MarkupStripped.nil
    | cons c cs =>
      simp only [List.length_cons] at hlen
      unfold stripTagsAux
      split
      · rename_i hc
        subst hc
        split
        · rename_i rest hr
          obtain ⟨y, hy, hne, hgt⟩ := afterTag_some_split hr
          exact MarkupStripped.drop _ y rest _ (by rw [hy]) hne hgt
            (ih rest (by have := (afterTag_some hr).1; omega))
        · rename_i hn
          exact MarkupStripped.keep _ _ _ (not_StartsTag_of_afterTag_none hn) (ih cs (by omega))
      · rename_i hc
        exact MarkupStripped.keep _ _ _ (not_StartsTag_of_head_ne cs hc) (ih cs (by omega))

theorem MarkupStripped_stripTags (cs : List Char) : MarkupStripped cs (stripTags cs) :=
  MarkupStripped_stripTagsAux _ cs (Nat.lt_succ_self _)

theorem tag_split_unique :
    ∀ (y y1 post post1 : List Char), '>' ∉ y → '>' ∉ y1 →
      y ++ '>' :: post = y1 ++ '>' :: post1 → y = y1 ∧ post = post1 := by
  intro y
  induction y with
  | nil =>
    intro y1 post post1 _ h1 h
    cases y1 with
    | nil => simpa using h
    | cons d ds =>
      simp only [List.nil_append, List.cons_append, List.cons.injEq] at h
      exact absurd (h.1 ▸ List.mem_cons_self _ _) h1
  | cons c cs ih =>
    intro y1 post post1 h0 h1 h
    cases y1 with
    | nil =>
      simp only [List.nil_append, List.cons_append, List.cons.injEq] at h
      exact absurd (h.1 ▸ List.mem_cons_self _ _) h0
    | cons d ds =>
      simp only [List.cons_append, List.cons.injEq] at h
      obtain ⟨h2, h3⟩ := ih ds post post1 (fun hm => h0 (List.mem_cons_of_mem _ hm))
        (fun hm => h1 (List.mem_cons_of_mem _ hm)) h.2
      exact ⟨by rw [h.1, h2], h3⟩

theorem MarkupStripped_unique {l a b : List Char} (ha : MarkupStripped l a)
    (hb : MarkupStripped l b) : a = b := by
  induction ha generalizing b with
  | nil =>
    cases hb with
    | nil => rfl
    | drop l y post out hl _ _ _ => exact absurd hl (by simp)
  | keep c l out hns _ ih =>
    cases hb with
    | keep _ _ out1 _ h1 => rw [ih h1]
    | drop _ y post out1 hl hy hgt _ => exact absurd ⟨y, post, hl, hy, hgt⟩ hns
  | drop l y post out hl hy hgt _ ih =>
    subst hl
    cases hb with
    | keep _ _ out1 hns _ => exact absurd ⟨y, post, rfl, hy, hgt⟩ hns
    | drop _ y1 post1 out1 hl1 hy1 hgt1 h1 =>
      have hcs : y ++ '>' :: post = y1 ++ '>' :: post1 := List.tail_eq_of_cons_eq hl1
      obtain ⟨-, hp⟩ := tag_split_unique y y1 post post1 hgt hgt1 hcs
      subst hp
      exact ih h1

theorem wordsAux_spaces (t : List Char) (ht : ∀ x ∈ t, isJsSpace x = true) :
    ∀ cur : List Char, wordsAux cur t = if cur = [] then [] else [cur] := by
  induction t with
  | nil => intro cur; rfl
  | cons x t ih =>
    intro cur
    have hx : isJsSpace x = true := ht x (List.mem_cons_self _ _)
    have iht := ih (fun y hy => ht y (List.mem_cons_of_mem _ hy)) []
    simp only [if_true] at iht
    unfold wordsAux
    simp only [hx, if_true, iht]

theorem wordsAux_append_spaces (a t : List Char) (ht : ∀ x ∈ t, isJsSpace x = true) :
    ∀ cur : List Char, wordsAux cur (a ++ t) = wordsAux cur a := by
  induction a with
  | nil =>
    intro cur
    rw [List.nil_append, wordsAux_spaces t ht cur]
    rfl
  | cons c a ih =>
    intro cur
    have e1 : wordsAux cur (c :: a ++ t) =
        if isJsSpace c = true then
          if cur = [] then wordsAux [] (a ++ t) else cur :: wordsAux [] (a ++ t)
        else wordsAux (cur ++ [c]) (a ++ t) := rfl
    have e2 : wordsAux cur (c :: a) =
        if isJsSpace c = true then
          if cur = [] then wordsAux [] a else cur :: wordsAux [] a
        else wordsAux (cur ++ [c]) a := rfl
    rw [e1, e2, ih, ih]

theorem wordsAux_dropWhile (l : List Char) :
    wordsAux [] (l.dropWhile isJsSpace) = wordsAux [] l := by
  induction l with
  | nil => rfl
  | cons c l ih =>
    by_cases hc : isJsSpace c = true
    · rw [List.dropWhile_cons_of_pos hc, ih]
      simp [wordsAux, hc]
    · rw [List.dropWhile_cons_of_neg hc]

theorem wordsOf_trimChars (l : List Char) : wordsOf (trimChars l) = wordsOf l := by
  unfold wordsOf
  have hdec : l.dropWhile isJsSpace =
      trimChars l ++ ((l.dropWhile isJsSpace).reverse.takeWhile isJsSpace).reverse := by
    unfold trimChars
    rw [← List.reverse_append, List.takeWhile_append_dropWhile, List.reverse_reverse]
  have hsp : ∀ x ∈ ((l.dropWhile isJsSpace).reverse.takeWhile isJsSpace).reverse,
      isJsSpace x = true := by
    intro x hx
    exact List.mem_takeWhile_imp (List.mem_reverse.mp hx)
  rw [← wordsAux_dropWhile l, hdec, wordsAux_append_spaces _ _ hsp]

theorem wordsAux_collapseSpaces (s : List Char) :
    ∀ (b : Bool) (cur : List Char), (b = true → cur = []) →
      wordsAux cur (collapseSpaces b s) = wordsAux cur s := by
  induction s with
  | nil => intro b cur _; rfl
  | cons c s ih =>
    intro b cur hb
    by_cases hc : isJsSpace c = true
    · cases b with
      | true =>
        have hcur : cur = [] := hb rfl
        subst hcur
        simp only [collapseSpaces, hc, if_true, wordsAux]
        exact ih true [] (fun _ => rfl)
      | false =>
        have hsp : isJsSpace ' ' = true := by decide
        simp only [collapseSpaces, hc, if_true, wordsAux, hsp, Bool.false_eq_true, if_false]
        rw [ih true [] (fun _ => rfl)]
    · simp only [collapseSpaces, hc, if_false, wordsAux, Bool.false_eq_true]
      exact ih false _ (fun h => absurd h (by simp))

theorem wordsOf_plainBody (text : String) :
    wordsOf (plainBody text).data = wordsOf (stripTags text.data) := by
  show wordsOf (trimChars (collapseSpaces false (stripTags text.data))) = _
  rw [wordsOf_trimChars]
  exact wordsAux_collapseSpaces _ false [] (fun h => absurd h (by simp))

theorem head_collapseSpaces_true (s : List Char) (d : Char)
    (h : (collapseSpaces true s).head? = some d) : isJsSpace d = false := by
  induction s with
  | nil => simp [collapseSpaces] at h
  | cons c s ih =>
    by_cases hc : isJsSpace c = true
    · simp only [collapseSpaces, hc, if_true] at h
      exact ih h
    · simp only [collapseSpaces, hc, if_false, Bool.false_eq_true, List.head?_cons,
        Option.some.injEq] at h
      subst h
      simpa using hc

theorem chain_collapseSpaces (s : List Char) :
    ∀ b : Bool, List.Chain' (fun c d => isJsSpace c = true → isJsSpace d = false)
      (collapseSpaces b s) := by
  induction s with
  | nil => intro b; simp [collapseSpaces]
  | cons c s ih =>
    intro b
    by_cases hc : isJsSpace c = true
    · cases b with
      | true =>
        simp only [collapseSpaces, hc, if_true]
        exact ih true
      | false =>
        simp only [collapseSpaces, hc, if_true, Bool.false_eq_true, if_false]
        rw [List.chain'_cons']
        exact ⟨fun y hy _ => head_collapseSpaces_true s y (by simpa using hy), ih true⟩
    · simp only [collapseSpaces, hc, if_false, Bool.false_eq_true]
      rw [List.chain'_cons']
      exact ⟨fun y _ h => absurd h hc, ih false⟩

theorem plainBody_no_double_space (text : String) (pre post : List Char) (c d : Char)
    (h : (plainBody text).data = pre ++ c :: d :: post) (hc : isJsSpace c = true) :
    isJsSpace d = false := by
  obtain ⟨a, b, hab⟩ := trimChars_decompose (collapseSpaces false (stripTags text.data))
  have hchain := chain_collapseSpaces (stripTags text.data) false
  have hinf : [c, d] <:+: collapseSpaces false (stripTags text.data) := by
    refine ⟨a ++ pre, post ++ b, ?_⟩
    have hpb : trimChars (collapseSpaces false (stripTags text.data)) = pre ++ c :: d :: post := h
    rw [hab, hpb]
    simp
  have := hchain.infix hinf
  rw [List.chain'_pair] at this
  exact this hc

theorem join_wordsAux (l : List Char) :
    ∀ cur : List Char,
      (∀ x ∈ l, isJsSpace x = true → x = ' ') →
      List.Chain' (fun c d => isJsSpace c = true → isJsSpace d = false) l →
      (∀ x, l.getLast? = some x → isJsSpace x = false) →
      (cur = [] → ∀ x, l.head? = some x → isJsSpace x = false) →
      [' '].intercalate (wordsAux cur l) = cur ++ l := by
  induction l with
  | nil =>
    intro cur _ _ _ _
    by_cases hcur : cur = []
    · simp [wordsAux, hcur, List.intercalate]
    · simp [wordsAux, hcur, List.intercalate]
  | cons c l ih =>
    intro cur hsp hch hlast hhead
    rw [List.chain'_cons'] at hch
    have hsp1 : ∀ x ∈ l, isJsSpace x = true → x = ' ' :=
      fun x hx => hsp x (List.mem_cons_of_mem _ hx)
    have hlast1 : ∀ x, l.getLast? = some x → isJsSpace x = false := by
      intro x hx
      cases l with
      | nil => simp at hx
      | cons d ds => exact hlast x (by rw [List.getLast?_cons_cons]; exact hx)
    by_cases hc : isJsSpace c = true
    · have hcsp : c = ' ' := hsp c (List.mem_cons_self _ _) hc
      have hcur : cur ≠ [] := by
        intro h0
        have := hhead h0 c rfl
        rw [hc] at this
        exact absurd this (by simp)
      cases l with
      | nil =>
        have := hlast c rfl
        rw [hc] at this
        exact absurd this (by simp)
      | cons d ds =>
        have hd : isJsSpace d = false := hch.1 d (by simp) hc
        have ih1 := ih [] hsp1 hch.2 hlast1
          (fun _ x hx => by
            simp only [List.head?_cons, Option.some.injEq] at hx
            rw [← hx]; exact hd)
        have e : wordsAux cur (c :: d :: ds) = cur :: wordsAux [] (d :: ds) := by
          simp [wordsAux, hc, hcur]
        rw [e]
        cases hw : wordsAux [] (d :: ds) with
        | nil =>
          rw [hw] at ih1
          simp [List.intercalate] at ih1
        | cons w ws =>
          rw [hw] at ih1
          have e2 : [' '].intercalate (cur :: w :: ws) =
              cur ++ [' '] ++ [' '].intercalate (w :: ws) := by
            simp [List.intercalate]
          rw [e2, ih1, hcsp]
          simp
    · have e : wordsAux cur (c :: l) = wordsAux (cur ++ [c]) l := by
        simp [wordsAux, hc]
      rw [e, ih (cur ++ [c]) hsp1 hch.2 hlast1 (fun h0 => absurd h0 (by simp))]
      simp

theorem chain_plainBody (text : String) :
    List.Chain' (fun c d => isJsSpace c = true → isJsSpace d = false) (plainBody text).data := by
  obtain ⟨a, b, hab⟩ := trimChars_decompose (collapseSpaces false (stripTags text.data))
  have hchain := chain_collapseSpaces (stripTags text.data) false
  exact hchain.infix ⟨a, b, by rw [List.append_assoc]; exact hab.symm⟩

theorem plainBody_eq_words (text : String) :
    (plainBody text).data = [' '].intercalate (wordsOf (stripTags text.data)) := by
  rw [← wordsOf_plainBody]
  have := join_wordsAux (plainBody text).data [] (plainBody_space_only text)
    (chain_plainBody text) (trimChars_getLast _) (fun _ => trimChars_head _)
  rw [List.nil_append] at this
  exact this.symm

/-- C11: for every list of messages `getChatHistoryText` returns the entries
of the messages joined by a blank line, each entry being the sender label
(`Você` for a user message, else `Dr. Gasnelio` for persona `professor` and
`Gá` for any other), then `: `, then a body. The body is the message text
markup-stripped and trimmed: the text has exactly one markup-stripped form,
and the body is the words of that form joined by single spaces. So the body
neither starts nor ends with white space, holds no newline (its only white
space is the plain space, never twice in a row), and holds no substring made
of `<`, one or more characters other than `>`, and `>`. -/
theorem getChatHistoryText_flattens (chatHistory : List Message) :
    getChatHistoryText chatHistory =
        "\n\n".intercalate (chatHistory.map (fun msg =>
          (if msg.sender = "user" then "Você"
            else if msg.persona = some "professor" then "Dr. Gasnelio" else "Gá") ++
          ": " ++ plainBody msg.text)) ∧
      ∀ text : String,
        (∃ s, MarkupStripped text.data s) ∧
        (∀ s, MarkupStripped text.data s →
          (plainBody text).data = [' '].intercalate (wordsOf s)) ∧
        (∀ c, (plainBody text).data.head? = some c → isJsSpace c = false) ∧
        (∀ c, (plainBody text).data.getLast? = some c → isJsSpace c = false) ∧
        '\n' ∉ (plainBody text).data ∧
        (∀ c ∈ (plainBody text).data, isJsSpace c = true → c = ' ') ∧
        (∀ pre c d post, (plainBody text).data = pre ++ c :: d :: post →
          isJsSpace c = true → isJsSpace d = false) ∧
        ¬ ∃ pre y post, (plainBody text).data = pre ++ '<' :: (y ++ '>' :: post) ∧
          y ≠ [] ∧ '>' ∉ y :=
  ⟨rfl, fun text =>
    ⟨⟨_, MarkupStripped_stripTags text.data⟩,
      fun s hs => by
        rw [MarkupStripped_unique hs (MarkupStripped_stripTags text.data)]
        exact plainBody_eq_words text,
      trimChars_head _, trimChars_getLast _, plainBody_no_newline text,
      plainBody_space_only text,
      fun pre c d post h hc => plainBody_no_double_space text pre post c d h hc,
      no_tag_of_NoOpenTag _ (NoOpenTag_plainBody text)⟩⟩

/-- The markup-stripped form and the words of a text with markup and line
breaks, and the body made of them. -/
theorem plainBody_example :
    MarkupStripped "  Olá,\n<b>doutor</b>  ".data "  Olá,\ndoutor  ".data ∧
      wordsOf "  Olá,\ndoutor  ".data = ["Olá,".data, "doutor".data] ∧
      plainBody "  Olá,\n<b>doutor</b>  " = "Olá, doutor" := by
  refine ⟨?_, by decide, by decide⟩
  have h := MarkupStripped_stripTags "  Olá,\n<b>doutor</b>  ".data
  have e : stripTags "  Olá,\n<b>doutor</b>  ".data = "  Olá,\ndoutor  ".data := by decide
  rw [e] at h
  exact h

end Chatbot
